import Mathlib

/-!
Verification development for the Notion → Google Sheets sync engine
(Apps Script / TypeScript sources).  The TypeScript functions are embedded
shallowly as Lean definitions: pure string utilities directly, the
spreadsheet as an explicit `Grid` state, HTTP transports as response
transcripts.  Machine strings are Lean `String`s; JS `Number` values that
matter to the claims are integers.
-/

deriving instance DecidableEq for Except

namespace Sync

/-! ## JS string primitives -/

/-- ASCII whitespace recognised by JS `trim` and the regex class
backslash-s.  The development instantiates strings over the ASCII
fragment, where this set is exact. -/
def isJsWs (c : Char) : Bool :=
  c == ' ' || c == '\t' || c == '\n' || c == '\r' || c == '\x0b' || c == '\x0c'

/-- JS `String.prototype.trim` (ASCII fragment). -/
def jsTrim (s : String) : String :=
  ⟨((s.toList.dropWhile isJsWs).reverse.dropWhile isJsWs).reverse⟩

/-- Collapse each maximal whitespace run to a single space:
JS `replace(/\s+/g, " ")` (ASCII fragment). -/
def collapseWsGo : Bool → List Char → List Char
  | _, [] => []
  | prevWs, c :: rest =>
    if isJsWs c then
      if prevWs then collapseWsGo true rest else ' ' :: collapseWsGo true rest
    else c :: collapseWsGo false rest

/-- JS `replace(/\s+/g, " ")`. -/
def collapseWs (s : String) : String := ⟨collapseWsGo false s.toList⟩

/-- JS `String.prototype.toLowerCase` (ASCII fragment: Lean's
`Char.toLower` lowers exactly the ASCII uppercase letters). -/
def jsLower (s : String) : String := ⟨s.toList.map Char.toLower⟩

/-- JS `String.prototype.normalize("NFKC")`.  NFKC normalisation is the
identity on the ASCII fragment over which this development instantiates
strings, so it is embedded as the identity. -/
def nfkc (s : String) : String := s

/-- utils/core.ts `normKey`: `s ? s.normalize("NFKC").trim().replace(/\s+/g," ").toLowerCase() : ""`. -/
def normKey (s : String) : String :=
  if s = "" then "" else jsLower (collapseWs (jsTrim (nfkc s)))

/-- Value of a hexadecimal digit character, if any. -/
def hexVal (c : Char) : Option Nat :=
  if '0' ≤ c ∧ c ≤ '9' then some (c.toNat - 48)
  else if 'a' ≤ c ∧ c ≤ 'f' then some (c.toNat - 87)
  else if 'A' ≤ c ∧ c ≤ 'F' then some (c.toNat - 55)
  else none

/-- UTF-8 encoding of one code point (used for the pass-through characters
of `decodeURIComponent`). -/
def utf8EncodeChar (c : Char) : List Nat :=
  let n := c.toNat
  if n < 0x80 then [n]
  else if n < 0x800 then [0xC0 + n / 64, 0x80 + n % 64]
  else if n < 0x10000 then [0xE0 + n / 4096, 0x80 + n / 64 % 64, 0x80 + n % 64]
  else [0xF0 + n / 262144, 0x80 + n / 4096 % 64, 0x80 + n / 64 % 64, 0x80 + n % 64]

/-- Percent-decode a character sequence to a byte sequence; `none` models
the `URIError` thrown on a malformed percent escape. -/
def percentToBytes : List Char → Option (List Nat)
  | [] => some []
  | '%' :: h1 :: h2 :: rest => do
    let a ← hexVal h1
    let b ← hexVal h2
    let t ← percentToBytes rest
    pure ((16 * a + b) :: t)
  | '%' :: _ => none
  | c :: rest => do
    let t ← percentToBytes rest
    pure (utf8EncodeChar c ++ t)

/-- Whether a byte is a UTF-8 continuation byte. -/
def isCont (b : Nat) : Bool := 0x80 ≤ b && b < 0xC0

/-- Strict UTF-8 decoder (rejects overlong forms, surrogates and
out-of-range sequences); `none` models the `URIError` thrown by
`decodeURIComponent` on an invalid byte sequence. -/
def utf8DecodeBytes : List Nat → Option (List Char)
  | [] => some []
  | b :: rest =>
    if b < 0x80 then do
      let t ← utf8DecodeBytes rest
      pure (Char.ofNat b :: t)
    else if b < 0xC2 then none
    else if b < 0xE0 then
      match rest with
      | b1 :: rest2 =>
        if isCont b1 then do
          let t ← utf8DecodeBytes rest2
          pure (Char.ofNat ((b - 0xC0) * 64 + (b1 - 0x80)) :: t)
        else none
      | _ => none
    else if b < 0xF0 then
      match rest with
      | b1 :: b2 :: rest2 =>
        let okB1 :=
          if b == 0xE0 then 0xA0 ≤ b1 && b1 < 0xC0
          else if b == 0xED then 0x80 ≤ b1 && b1 < 0xA0
          else isCont b1
        if okB1 && isCont b2 then do
          let t ← utf8DecodeBytes rest2
          pure (Char.ofNat ((b - 0xE0) * 4096 + (b1 - 0x80) * 64 + (b2 - 0x80)) :: t)
        else none
      | _ => none
    else if b < 0xF5 then
      match rest with
      | b1 :: b2 :: b3 :: rest2 =>
        let okB1 :=
          if b == 0xF0 then 0x90 ≤ b1 && b1 < 0xC0
          else if b == 0xF4 then 0x80 ≤ b1 && b1 < 0x90
          else isCont b1
        if okB1 && isCont b2 && isCont b3 then do
          let t ← utf8DecodeBytes rest2
          pure (Char.ofNat
            ((b - 0xF0) * 262144 + (b1 - 0x80) * 4096 + (b2 - 0x80) * 64 + (b3 - 0x80)) :: t)
        else none
      | _ => none
    else none

/-- JS `decodeURIComponent`: percent escapes become bytes, decoded as
UTF-8; `none` models a thrown `URIError`.  (UTF-8 is self-synchronising,
so decoding the whole byte stream agrees with decoding each maximal
percent run separately.) -/
def decodeURIComponentJs (s : String) : Option String := do
  let bytes ← percentToBytes s.toList
  let chars ← utf8DecodeBytes bytes
  pure ⟨chars⟩

/-- utils/core.ts `decodeId`: `if (!id) return ""; try { return
decodeURIComponent(String(id)); } catch { return String(id); }`. -/
def decodeId (s : String) : String :=
  if s = "" then "" else (decodeURIComponentJs s).getD s

/-- Membership in the regex character class `[%a-z0-9]` with the `i`
flag: percent sign, ASCII letters and digits. -/
def isIdChar (c : Char) : Bool := c == '%' || c.isAlphanum

/-- Whether a character list contains two consecutive members of the
class, i.e. whether `/[%a-z0-9]{2,}/i` matches. -/
def hasTwoIdChars : List Char → Bool
  | a :: b :: rest => (isIdChar a && isIdChar b) || hasTwoIdChars (b :: rest)
  | _ => false

/-- utils/core.ts `looksLikeId`: `/[%a-z0-9]{2,}/i.test(String(s || ""))`. -/
def looksLikeId (s : String) : Bool := hasTwoIdChars s.toList

/-- utils/core.ts `getHeaderCI`: first own key of the header record whose
lowercased form matches the lowercased name (empty keys skipped by the
`k &&` guard); returns its value. -/
def getHeaderCI (headers : List (String × String)) (name : String) : Option String :=
  (headers.find? fun kv => kv.1 ≠ "" && jsLower kv.1 == jsLower name).map (·.2)

/-- JS `Number(...)` on the fragment used by the retry wrapper:
whitespace-trimmed nonnegative decimal integer strings evaluate to their
value, the empty string to 0; `none` models `NaN` for anything else. -/
def jsNumberNat (v : String) : Option Nat :=
  let t := jsTrim v
  if t = "" then some 0
  else if t.toList.all (·.isDigit) then some ((t.toList.map (·.toNat - 48)).foldl (fun a d => a * 10 + d) 0)
  else none

end Sync

namespace Sync

/-! ## Spreadsheet model

A sheet is modelled by its cell values (`rows`, 1-based row/column through
the accessors), its cell notes, its sheet-level developer metadata, and
its per-cell developer metadata.  Styling (formatSheet) touches no cell
content, note or metadata and is therefore invisible in this state. -/

/-- A sheet-level developer-metadata value.  The only key the engine
writes holds a JSON-serialised column→propId record; since JSON
round-trips flat string records, the blob is stored parsed, with
`corrupt` modelling an unparseable blob (JSON.parse throwing). -/
inductive MetaBlob where
  | valid (m : List (String × String))
  | corrupt
deriving DecidableEq, Repr

/-- Spreadsheet state. -/
structure Grid where
  rows : List (List String)
  notes : List (List String)
  meta : List (String × MetaBlob)
  cellMeta : List ((Nat × Nat) × List (String × String))
deriving DecidableEq, Repr

/-- Pad a list on the right to length `n` with `d` (no-op if already long
enough). -/
def padTo (l : List α) (n : Nat) (d : α) : List α :=
  l ++ List.replicate (n - l.length) d

/-- Set index `i` (0-based) in a list, padding with `d` as needed. -/
def setAt (l : List α) (i : Nat) (d : α) (v : α) : List α :=
  (padTo l (i + 1) d).set i v

/-- Overwrite the segment starting at 0-based index `start` with `vals`,
padding the row as needed and keeping cells after the segment. -/
def setSegment (row : List String) (start : Nat) (vals : List String) : List String :=
  let row2 := padTo row (start + vals.length) ""
  row2.take start ++ vals ++ row2.drop (start + vals.length)

/-- Cell value at 1-based (r, c); empty cells read back as `""`. -/
def getCell (g : Grid) (r c : Nat) : String :=
  ((g.rows.getD (r - 1) []).getD (c - 1) "")

/-- Cell note at 1-based (r, c). -/
def getNote (g : Grid) (r c : Nat) : String :=
  ((g.notes.getD (r - 1) []).getD (c - 1) "")

/-- `getRange(r, startCol, 1, vals.length).setValues([vals])`. -/
def writeCells (g : Grid) (r startCol : Nat) (vals : List String) : Grid :=
  { g with rows := setAt g.rows (r - 1) [] (setSegment (g.rows.getD (r - 1) []) (startCol - 1) vals) }

/-- `getRange(r, c).setValue(v)`. -/
def setCellValue (g : Grid) (r c : Nat) (v : String) : Grid :=
  writeCells g r c [v]

/-- `getRange(r, c).setNote(v)`. -/
def setCellNote (g : Grid) (r c : Nat) (v : String) : Grid :=
  { g with notes := setAt g.notes (r - 1) [] (setAt (g.notes.getD (r - 1) []) (c - 1) "" v) }

/-- 1-based index of the last cell of a row holding content. -/
def rowLastCol : List String → Nat
  | [] => 0
  | c :: rest =>
    let m := rowLastCol rest
    if m > 0 then m + 1 else if c ≠ "" then 1 else 0

/-- Whether a row holds any content. -/
def rowHasContent (row : List String) : Bool := row.any (· ≠ "")

/-- 1-based index of the last row holding content. -/
def lastContentRow : List (List String) → Nat
  | [] => 0
  | r :: rest =>
    let m := lastContentRow rest
    if m > 0 then m + 1 else if rowHasContent r then 1 else 0

/-- `sheet.getLastColumn()`: last column with content. -/
def getLastColumn (g : Grid) : Nat := (g.rows.map rowLastCol).foldr max 0

/-- `sheet.getLastRow()`: last row with content. -/
def getLastRow (g : Grid) : Nat := lastContentRow g.rows

/-- Row 1 read back over `n` columns (`getRange(1,1,1,n).getValues()[0]`):
missing cells read as `""`. -/
def row1Padded (g : Grid) (n : Nat) : List String :=
  padTo (g.rows.getD 0 []) n ""

/-- `getRange(1,1,1,lastCol).clearContent().clearNote()`. -/
def clearRow1 (g : Grid) (lastCol : Nat) : Grid :=
  { g with
    rows := setAt g.rows 0 [] (setSegment (g.rows.getD 0 []) 0 (List.replicate lastCol ""))
    notes := setAt g.notes 0 [] (setSegment (g.notes.getD 0 []) 0 (List.replicate lastCol "")) }

/-- The row-1 slice ensureHeaders compares against the requested headers:
first `width` cells of row 1 read over `max(lastColumn, width)` columns. -/
def headerSlice (g : Grid) (width : Nat) : List String :=
  (row1Padded g (max (getLastColumn g) width)).take width

/-- Result of `ensureHeaders`: the returned `changed` flag, the sheet
state after the call, and the number of grid mutation calls performed. -/
structure EnsureResult where
  changed : Bool
  grid : Grid
  writes : Nat
deriving DecidableEq, Repr

/-- sheets/headers.ts `ensureHeaders(sheet, headers)`: compares the first
`headers.length` cells of row 1 (read as strings) against `headers` by
strict positional equality; on mismatch clears row 1 (content and notes)
over `max(lastColumn, width)` columns and writes the headers.  Cosmetic
`formatSheet` touches only styling, hence no state change here. -/
def ensureHeaders (g : Grid) (headers : List String) : EnsureResult :=
  if headers.isEmpty then ⟨false, g, 0⟩
  else
    let width := headers.length
    let lastCol := max (getLastColumn g) width
    let currentSlice := (row1Padded g lastCol).take width
    let same := currentSlice = headers
    if same then ⟨false, g, 0⟩
    else
      let g1 := clearRow1 g lastCol
      let g2 := writeCells g1 1 1 headers
      ⟨true, g2, 2⟩

/-- `sheet.appendRow(row)`: writes the row's cells starting at column 1
of row `getLastRow() + 1`. -/
def appendRowG (g : Grid) (row : List String) : Grid :=
  writeCells g (getLastRow g + 1) 1 row

/-- Map-set with JS `Map`/record semantics: replace the value of an
existing key in place (keys are unique), else append the binding. -/
def mapSet : List (String × α) → String → α → List (String × α)
  | [], k, v => [(k, v)]
  | kv :: rest, k, v => if kv.1 == k then (k, v) :: rest else kv :: mapSet rest k v

/-- Map lookup (first binding wins; `mapSet` keeps keys unique). -/
def mapLookup (m : List (String × α)) (k : String) : Option α :=
  (m.find? (·.1 == k)).map (·.2)

/-- Loop of the key-map build: `i` is the 0-based index of the next data
row (`map.set(key, i + 2)` because of the header row and 1-based rows). -/
def buildKeyMapGo (keyCol : Nat) : Nat → List (List String) → List (String × Nat) → List (String × Nat)
  | _, [], m => m
  | i, row :: rest, m =>
    let key := jsTrim (row.getD keyCol "")
    buildKeyMapGo keyCol (i + 1) rest (if key = "" then m else mapSet m key (i + 2))

/-- Key → 1-based sheet row for the existing data rows, skipping rows
whose key cell is blank after trimming (`if (key) map.set(key, i + 2)`). -/
def buildKeyMap (dataRows : List (List String)) (keyCol : Nat) : List (String × Nat) :=
  buildKeyMapGo keyCol 0 dataRows []

/-- One step of the upsert loop over a new row. -/
def upsertStep (keyIndex : Nat) (keyMap : List (String × Nat))
    (acc : Nat × Nat × Grid) (row : List String) : Nat × Nat × Grid :=
  let key := jsTrim (row.getD keyIndex "")
  if key = "" then acc
  else
    match mapLookup keyMap key with
    | some r => (acc.1, acc.2.1 + 1, writeCells acc.2.2 r 1 row)
    | none => (acc.1 + 1, acc.2.1, appendRowG acc.2.2 row)

/-- sheets/write.ts `upsertRowsByKey(sheet, keyHeader, headers, rows)`:
locates the key column in both the supplied headers and the sheet's
header row, builds a key→row map from the existing data rows once, then
updates matched rows in place and appends the rest.  Returns
`(inserted, updated, final sheet)`. -/
def upsertRowsByKey (g : Grid) (keyHeader : String) (headers : List String)
    (rows : List (List String)) : Except String (Nat × Nat × Grid) :=
  if rows.isEmpty then .ok (0, 0, g)
  else
    match headers.findIdx? (· == keyHeader) with
    | none => .error ("Key header " ++ keyHeader ++ " not found.")
    | some keyIndex =>
      let lastRow := getLastRow g
      let lastCol := getLastColumn g
      let values := (g.rows.take lastRow).map (fun r => padTo r lastCol "")
      let headerRow := values.headD []
      match headerRow.findIdx? (· == keyHeader) with
      | none => .error ("Key header " ++ keyHeader ++ " not found in sheet.")
      | some keyCol =>
        let dataRows := values.tail
        let keyMap := buildKeyMap dataRows keyCol
        let res := rows.foldl (upsertStep keyIndex keyMap) (0, 0, g)
        .ok res

/-- Split a list into chunks of `size` (≥ 1 in every caller; the JS loop
does not terminate for size 0, so the embedding clamps to 1). -/
def chunksGo (size : Nat) : Nat → List α → List (List α)
  | 0, _ => []
  | _, [] => []
  | fuel + 1, l => l.take (max size 1) :: chunksGo size fuel (l.drop (max size 1))

/-- sheets/write.ts `appendRowsBatched`: writes the rows in chunks, each
chunk starting at `getLastRow() + 1`. -/
def appendRowsBatched (g : Grid) (rows : List (List String)) (batchSize : Nat) : Grid :=
  if rows.isEmpty then g
  else
    (chunksGo batchSize rows.length rows).foldl
      (fun gAcc chunk =>
        let start := getLastRow gAcc + 1
        (chunk.enum).foldl (fun g2 ir => writeCells g2 (start + ir.1) 1 ir.2) gAcc)
      g

/-- Sync write mode. -/
inductive SyncMode where
  | append
  | upsert
deriving DecidableEq, Repr

/-- notion/orchestrators.ts `syncDataSourceToSheet`, write phase (the part
run under the sheet lock, after specs/pages/rows are assembled):
`ensureHeaders` first, then the mode dispatch — the missing-keyLabel
check happens after the header write.  Returns the thrown-or-returned
outcome together with the sheet state when control leaves the phase. -/
def syncWritePhase (g : Grid) (headers : List String) (mode : SyncMode)
    (keyLabel : Option String) (rows : List (List String)) (batchSize : Nat) :
    Except String (Nat × Nat) × Grid :=
  let er := ensureHeaders g headers
  let g1 := er.grid
  match mode with
  | .upsert =>
    match keyLabel with
    | none => (.error "syncDataSourceToSheet: keyLabel is required when mode=upsert", g1)
    | some kl =>
      match upsertRowsByKey g1 kl headers rows with
      | .ok (i, u, g2) => (.ok (i, u), g2)
      | .error e => (.error e, g1)
  | .append => (.ok (rows.length, 0), appendRowsBatched g1 rows batchSize)

/-! ## Column identity store -/

/-- The fixed sheet-level metadata key holding the column→propId map. -/
def META_KEY_COLMAP : String := "NOTION_SYNC_COLMAP"

/-- sheets state `getSheetMeta`: value of the metadata entry with the
given key, if any. -/
def getSheetMeta (g : Grid) (key : String) : Option MetaBlob :=
  (g.meta.find? (·.1 == key)).map (·.2)

/-- sheets state `setSheetMeta`: removes entries with the key, then adds
the binding. -/
def setSheetMeta (g : Grid) (key : String) (v : MetaBlob) : Grid :=
  { g with meta := g.meta.filter (·.1 ≠ key) ++ [(key, v)] }

/-- The parsed column→propId record: absent or corrupt blobs parse to the
empty record (`if (raw) { try { map = JSON.parse(raw) } catch { map = {} } }`). -/
def loadColMap (g : Grid) : List (String × String) :=
  match getSheetMeta g META_KEY_COLMAP with
  | some (.valid m) => m
  | _ => []

/-- Per-cell developer metadata of cell (r, c). -/
def getCellMeta (g : Grid) (r c : Nat) : List (String × String) :=
  ((g.cellMeta.find? (·.1 == (r, c))).map (·.2)).getD []

/-- Replace the developer metadata list of cell (r, c). -/
def setCellMetaList (g : Grid) (r c : Nat) (l : List (String × String)) : Grid :=
  { g with cellMeta := ((r, c), l) :: g.cellMeta.filter (·.1 ≠ (r, c)) }

/-- sheets/headers.ts `setHeaderCellWithId(sheet, row, col, label, propId)`:
visible label, decoded propId as the cell note, the col→propId binding
set in the sheet-level map (read-modify-write), and a `notionPropId`
entry refreshed in the cell's own metadata. -/
def setHeaderCellWithId (g : Grid) (row col : Nat) (label propId : String) : Grid :=
  let pretty := decodeId propId
  let g1 := setCellValue g row col label
  let g2 := setCellNote g1 row col pretty
  let m := loadColMap g2
  let m2 := mapSet m (toString col) pretty
  let g3 := setSheetMeta g2 META_KEY_COLMAP (.valid m2)
  setCellMetaList g3 row col
    ((getCellMeta g3 row col).filter (·.1 ≠ "notionPropId") ++ [("notionPropId", pretty)])

end Sync

namespace Sync

/-! ## Schema matcher

A live schema is `Object.entries(obj.properties)` in object-key insertion
order: a list of (property name, property id) pairs, the id already in
its `String(p?.id || "")` form.  An alias map is its entry list in key
insertion order (keys unique). -/

/-- A resolved column spec (types/global.d.ts `NotionSpec`). -/
structure NotionSpec where
  label : String
  propId : String
  name : String
deriving DecidableEq, Repr

/-- notion/schema.ts `buildNameIndexCI(props)`: normalized-name →
(name, id) index; entries with empty id skipped; later properties with
the same normalized name overwrite earlier ones (`Map.set`). -/
def buildNameIndexCI (props : List (String × String)) : List (String × (String × String)) :=
  props.foldl
    (fun idx np => if np.2 = "" then idx else mapSet idx (normKey np.1) (np.1, np.2))
    []

/-- Resolution of one alias entry: the ID-first branch scans the schema
for a property whose id matches the decoded alias key or the raw key
verbatim; the name branch consults the case/spacing-insensitive index
and falls back to the schema name when the alias label is empty.
`none` is the logged skip. -/
def resolveAliasCI (props : List (String × String))
    (index : List (String × (String × String))) (aliasKey aliasVal : String) :
    Option NotionSpec :=
  if looksLikeId aliasKey then
    let pretty := decodeId aliasKey
    match props.find? (fun np => decodeId np.2 == pretty || np.2 == aliasKey) with
    | some np => some ⟨aliasVal, np.2, np.1⟩
    | none => none
  else
    match mapLookup index (normKey aliasKey) with
    | some hit => some ⟨if aliasVal = "" then hit.1 else aliasVal, hit.2, hit.1⟩
    | none => none

/-- notion/schema.ts `buildSpecsFromDataSourceWithAliasesOnlyCI`: one pass
over the alias entries in map order, pushing the resolved spec and
skipping misses. -/
def buildSpecsFromDataSourceWithAliasesOnlyCI (props : List (String × String))
    (aliases : List (String × String)) : List NotionSpec :=
  let index := buildNameIndexCI props
  aliases.filterMap (fun kv => resolveAliasCI props index kv.1 kv.2)

/-! ## Pagination engine -/

/-- One response of the query endpoint as seen through `notionApi` with
`throwOnHttpError: false`: `ok`/`status` from the transport and the
parsed body fields `results`, `has_more`, `next_cursor`. -/
structure QueryResp (R : Type) where
  ok : Bool
  status : Nat
  results : Option (List R)
  hasMore : Bool
  nextCursor : Option String
deriving DecidableEq, Repr

/-- The continuation cursor after a response:
`r.data.has_more && r.data.next_cursor ? r.data.next_cursor : null`
(an absent or empty cursor is falsy). -/
def cursorOf (r : QueryResp R) : Option String :=
  match r.nextCursor with
  | some s => if r.hasMore && s ≠ "" then some s else none
  | none => none

/-- Loop of notion/query.ts `queryDataSourceAll`, run against the
transcript of responses the mocked server produces for the successive
cursor-chained requests. -/
def queryAllGo : List (QueryResp R) → List R → Option String → Except String (List R)
  | _, acc, none => .ok acc
  | [], _, some _ => .error "pagination → transcript exhausted"
  | r :: rest, acc, some _ =>
    if r.ok then queryAllGo rest (acc ++ r.results.getD []) (cursorOf r)
    else .error ("pagination → " ++ toString r.status)

/-- notion/query.ts `queryDataSourceAll`: first page, then follow
`next_cursor` while the server signals more, concatenating `results` in
arrival order; a non-ok page raises.  The argument is the response
transcript in request order. -/
def queryDataSourceAll (pages : List (QueryResp R)) : Except String (List R) :=
  match pages with
  | [] => .error "no response"
  | r :: rest =>
    if r.ok then queryAllGo rest (r.results.getD []) (cursorOf r)
    else .error ("POST query → " ++ toString r.status)

/-! ## Retry wrapper -/

/-- One outcome of `UrlFetchApp.fetch`: an HTTP response (status and
response headers; the body is irrelevant to the wrapper) or a
transport-level exception. -/
inductive FetchOutcome where
  | resp (status : Nat) (headers : List (String × String))
  | exc (msg : String)

/-- Whether a status triggers the retry branch: `status === 429 || status >= 500`. -/
def isRetryStatus (status : Nat) : Bool := status == 429 || status ≥ 500

/-- The numeric Retry-After reading:
`Number(getHeaderCI(headers, "Retry-After") || 0)`, `none` for `NaN`. -/
def retryAfterVal (headers : List (String × String)) : Option Nat :=
  match getHeaderCI headers "Retry-After" with
  | none => some 0
  | some v => if v = "" then some 0 else jsNumberNat v

/-- Milliseconds slept after a retryable response:
`ra > 0 ? ra * 1000 : delayMs` (a `NaN` reading is not `> 0`). -/
def retryWait (headers : List (String × String)) (delayMs : Nat) : Nat :=
  match retryAfterVal headers with
  | some ra => if ra > 0 then ra * 1000 else delayMs
  | none => delayMs

/-- Aggregate observable behaviour of one `notionFetchWithRetry` call:
its outcome, the sleeps it performed (in order), and the number of fetch
attempts it made. -/
structure RetryRun where
  result : Except String (Nat × List (String × String))
  sleeps : List Nat
  attempts : Nat
deriving Repr

/-- Loop of notion http `notionFetchWithRetry`: `remaining` counts down
from `maxAttempts = 5`; `i` is the 0-based index of the next attempt,
`delayMs` the current backoff (doubling each continuing attempt),
`lastErr` the last transport exception captured. -/
def retryGo (tr : Nat → FetchOutcome) :
    Nat → Nat → Nat → Option String → List Nat → RetryRun
  | 0, i, _, lastErr, sleeps =>
    ⟨.error (lastErr.getD "notionFetchWithRetry: failed after retries"), sleeps.reverse, i⟩
  | remaining + 1, i, delayMs, lastErr, sleeps =>
    match tr i with
    | .resp status headers =>
      if isRetryStatus status then
        retryGo tr remaining (i + 1) (delayMs * 2) lastErr (retryWait headers delayMs :: sleeps)
      else ⟨.ok (status, headers), sleeps.reverse, i + 1⟩
    | .exc m => retryGo tr remaining (i + 1) (delayMs * 2) (some m) (delayMs :: sleeps)

/-- notion http `notionFetchWithRetry(url, options)` run against the
transcript `tr` of successive fetch outcomes: max 5 attempts starting
from a 250 ms backoff. -/
def notionFetchWithRetry (tr : Nat → FetchOutcome) : RetryRun :=
  retryGo tr 5 0 250 none []

/-- Whether an outcome makes the wrapper continue to another attempt:
a retryable-status response or a transport exception. -/
def continues (o : FetchOutcome) : Bool :=
  match o with
  | .resp status _ => isRetryStatus status
  | .exc _ => true

/-- The sleep the wrapper performs after continuing attempt `i` (0-based):
the positive Retry-After value in milliseconds when the response carries
one, else the doubled backoff `250 * 2 ^ i`. -/
def expectedSleep (o : FetchOutcome) (i : Nat) : Nat :=
  match o with
  | .resp _ headers => retryWait headers (250 * 2 ^ i)
  | .exc _ => 250 * 2 ^ i

/-- Running update of the captured last transport-exception message over
attempts `i, i+1, …, i+rem-1` of a transcript, starting from `le`
(HTTP responses capture nothing). -/
def lastExcIn (tr : Nat → FetchOutcome) : Nat → Nat → Option String → Option String
  | _, 0, le => le
  | i, rem + 1, le =>
    lastExcIn tr (i + 1) rem
      (match tr i with
       | .exc m => some m
       | .resp _ _ => le)

end Sync

namespace Sync

/-! ## Property flattener

Typed Notion property values.  Absent/null JS fields are `Option`s;
arrays already normalised by the `|| []` guards are plain lists.  Notion
numbers are embedded as integers (no claim depends on non-integral
values).  `JSON.stringify` of an unrecognised object is embedded as an
opaque total serialisation (`reprStr`); the claims depend only on it
being a string.  Rollup arrays are modelled one level deep: their
elements are the leaf property kinds the code's own rollup switch
enumerates, plus an unrecognised tag. -/

/-- A person entry: `{name?, person?: {email?}, id?}`. -/
structure PersonRef where
  name : Option String
  email : Option String
  id : Option String
deriving DecidableEq, Repr

/-- A file entry: `{name?, file?: {url?}, external?: {url?}}`. -/
structure FileRef where
  name : Option String
  fileUrl : Option String
  externalUrl : Option String
deriving DecidableEq, Repr

/-- A date value: `{start?, end?}`. -/
structure DateVal where
  start : Option String
  stop : Option String
deriving DecidableEq, Repr

/-- An element of a rollup array (leaf property kinds only; a null array
slot is `Option.none` at the use site). -/
inductive RollupItem where
  | rtitle (runs : List (Option String))
  | rrich (runs : List (Option String))
  | rpeople (ps : List PersonRef)
  | rselect (name : Option String)
  | rmulti (opts : List (Option String))
  | rstatus (name : Option String)
  | rnumber (n : Option Int)
  | runrecognized (tag : String)
deriving DecidableEq, Repr

/-- A rollup payload (`prop.rollup`). -/
inductive RollupVal where
  | number (n : Option Int)
  | date (d : Option DateVal)
  | array (items : List (Option RollupItem))
  | unrecognizedR (tag : String)
deriving DecidableEq, Repr

/-- A formula payload (`prop.formula`). -/
inductive FormulaVal where
  | fstring (s : Option String)
  | fnumber (n : Option Int)
  | fboolean (b : Bool)
  | fdate (d : Option DateVal)
  | unrecognizedF (tag : String)
deriving DecidableEq, Repr

/-- A typed Notion property value (`page.properties[...]`). -/
inductive NotionProp where
  | title (runs : List (Option String))
  | richText (runs : List (Option String))
  | number (n : Option Int)
  | checkbox (b : Bool)
  | status (name : Option String)
  | select (name : Option String)
  | multiSelect (opts : List (Option String))
  | people (ps : List PersonRef)
  | email (v : Option String)
  | phoneNumber (v : Option String)
  | url (v : Option String)
  | date (d : Option DateVal)
  | files (fs : List FileRef)
  | relation (ids : List (Option String))
  | rollup (r : Option RollupVal)
  | formula (f : Option FormulaVal)
  | createdBy (name : Option String)
  | lastEditedBy (name : Option String)
  | createdTime (v : Option String)
  | lastEditedTime (v : Option String)
  | unrecognizedProp (tag : String)
deriving DecidableEq, Repr

/-- A value written into a sheet cell by `stringifyNotionProp`: the JS
function returns strings, raw numbers, or raw booleans. -/
inductive CellValue where
  | str (s : String)
  | num (n : Int)
  | boolV (b : Bool)
deriving DecidableEq, Repr

/-- Whether a cell value is a string. -/
def CellValue.isStr : CellValue → Bool
  | .str _ => true
  | _ => false

/-- JS truthiness of an optional string field. -/
def jsTruthyS (o : Option String) : Bool :=
  match o with
  | some s => s ≠ ""
  | none => false

/-- First truthy value of an `a || b || …` chain over optional strings,
or `none` when every link is falsy/absent. -/
def firstTruthy : List (Option String) → Option String
  | [] => none
  | o :: rest => if jsTruthyS o then o else firstTruthy rest

/-- JS `Array.prototype.join` of value-or-undefined entries: undefined
(and null) render as the empty string. -/
def joinOpt (sep : String) (l : List (Option String)) : String :=
  String.intercalate sep (l.map (·.getD ""))

/-- Opaque embedding of `JSON.stringify` on an unrecognised property
(total; the claims depend only on the result being a string). -/
def jsonStringifyProp (p : NotionProp) : String := reprStr p

/-- Opaque embedding of `JSON.stringify` on an unrecognised rollup value. -/
def jsonStringifyRollup (r : RollupVal) : String := reprStr r

/-- Opaque embedding of `JSON.stringify` on an unrecognised rollup array
element. -/
def jsonStringifyItem (x : RollupItem) : String := reprStr x

/-- Opaque embedding of `JSON.stringify` on an unrecognised formula value. -/
def jsonStringifyFormula (f : FormulaVal) : String := reprStr f

/-- The `"{start} → {end}"` / start / `""` date rendering shared by the
orchestrator's date, rollup-date and formula-date branches. -/
def dateDisplay (d : Option DateVal) : String :=
  match d with
  | none => ""
  | some dv =>
    if jsTruthyS dv.start && jsTruthyS dv.stop then
      dv.start.getD "" ++ " → " ++ dv.stop.getD ""
    else dv.start.getD ""

/-- `p?.name || p?.person?.email || p?.id` (undefined renders as "" when
joined). -/
def personDisplayFull (p : PersonRef) : Option String :=
  firstTruthy [p.name, p.email, p.id]

/-- `f?.name || f?.file?.url || f?.external?.url`. -/
def fileDisplay (f : FileRef) : Option String :=
  firstTruthy [f.name, f.fileUrl, f.externalUrl]

/-- One element of the rollup-array rendering in `stringifyRollup`
(`if (!x) return ""`, then the inline type switch; `.join("; ")`
stringifies the numeric branch). -/
def rollupItemStringify (x : Option RollupItem) : String :=
  match x with
  | none => ""
  | some (.rtitle runs) => joinOpt "" runs
  | some (.rrich runs) => joinOpt "" runs
  | some (.rpeople ps) => joinOpt ", " (ps.map personDisplayFull)
  | some (.rselect name) => name.getD ""
  | some (.rmulti opts) => joinOpt ", " opts
  | some (.rstatus name) => name.getD ""
  | some (.rnumber n) =>
    match n with
    | some v => toString v
    | none => ""
  | some (.runrecognized t) => jsonStringifyItem (.runrecognized t)

/-- notion/orchestrators.ts `stringifyRollup` (on the rollup payload;
the guard on a non-rollup/absent payload returns ""). -/
def stringifyRollup (r : Option RollupVal) : CellValue :=
  match r with
  | none => .str ""
  | some (.number n) =>
    match n with
    | some v => .num v
    | none => .str ""
  | some (.date d) => .str (dateDisplay d)
  | some (.array items) => .str (String.intercalate "; " (items.map rollupItemStringify))
  | some (.unrecognizedR t) => .str (jsonStringifyRollup (.unrecognizedR t))

/-- notion/orchestrators.ts `stringifyFormula`. -/
def stringifyFormula (f : Option FormulaVal) : CellValue :=
  match f with
  | none => .str ""
  | some (.fstring s) => .str (s.getD "")
  | some (.fnumber n) =>
    match n with
    | some v => .num v
    | none => .str ""
  | some (.fboolean b) => .boolV b
  | some (.fdate d) => .str (dateDisplay d)
  | some (.unrecognizedF t) => .str (jsonStringifyFormula (.unrecognizedF t))

/-- notion/orchestrators.ts `stringifyNotionProp(prop)`: the flattener
used on the primary sync path.  A null/non-object property renders as
"".  Note the checkbox branch returns a raw boolean and the number
branches return raw numbers; created/edited metadata variants fall into
the default JSON branch. -/
def stringifyNotionProp (prop : Option NotionProp) : CellValue :=
  match prop with
  | none => .str ""
  | some (.title runs) => .str (joinOpt "" runs)
  | some (.richText runs) => .str (joinOpt "" runs)
  | some (.number n) =>
    match n with
    | some v => .num v
    | none => .str ""
  | some (.checkbox b) => .boolV b
  | some (.status name) => .str (name.getD "")
  | some (.select name) => .str (name.getD "")
  | some (.multiSelect opts) => .str (joinOpt ", " opts)
  | some (.people ps) => .str (joinOpt ", " (ps.map personDisplayFull))
  | some (.email v) => .str (v.getD "")
  | some (.phoneNumber v) => .str (v.getD "")
  | some (.url v) => .str (v.getD "")
  | some (.date d) => .str (dateDisplay d)
  | some (.files fs) => .str (String.intercalate ", " (fs.filterMap fileDisplay))
  | some (.relation ids) => .str (joinOpt ", " ids)
  | some (.rollup r) => stringifyRollup r
  | some (.formula f) => stringifyFormula f
  | some (.createdBy n) => .str (jsonStringifyProp (.createdBy n))
  | some (.lastEditedBy n) => .str (jsonStringifyProp (.lastEditedBy n))
  | some (.createdTime v) => .str (jsonStringifyProp (.createdTime v))
  | some (.lastEditedTime v) => .str (jsonStringifyProp (.lastEditedTime v))
  | some (.unrecognizedProp t) => .str (jsonStringifyProp (.unrecognizedProp t))

/-- `p?.name || p?.person?.email || ""` followed by `filter(Boolean)`:
the person rendering of `notionExtractCellValue` (no id fallback). -/
def personDisplayNoId (p : PersonRef) : Option String :=
  firstTruthy [p.name, p.email]

/-- The recursion of `notionExtractCellValue` restricted to the leaf
kinds occurring in rollup arrays (`x?.type ? notionExtractCellValue(x)`). -/
def extractRollupItem : RollupItem → String
  | .rtitle runs => joinOpt "" runs
  | .rrich runs => joinOpt "" runs
  | .rpeople ps => String.intercalate ", " ((ps.map personDisplayNoId).filterMap id)
  | .rselect name => name.getD ""
  | .rmulti opts => joinOpt ", " opts
  | .rstatus name => name.getD ""
  | .rnumber n =>
    match n with
    | some v => toString v
    | none => ""
  | .runrecognized _ => ""

/-- notion/props.ts `notionExtractCellValue(prop)`: the string-typed
flattener ("TRUE"/"FALSE" checkbox, stringified numbers, count-valued
relations, date starts only, per-element filter of empties). -/
def notionExtractCellValue (prop : Option NotionProp) : String :=
  match prop with
  | none => ""
  | some (.title runs) => joinOpt "" runs
  | some (.richText runs) => joinOpt "" runs
  | some (.number n) =>
    match n with
    | some v => toString v
    | none => ""
  | some (.checkbox b) => if b then "TRUE" else "FALSE"
  | some (.status name) => name.getD ""
  | some (.select name) => name.getD ""
  | some (.multiSelect opts) => joinOpt ", " opts
  | some (.people ps) => String.intercalate ", " ((ps.map personDisplayNoId).filterMap id)
  | some (.email v) => v.getD ""
  | some (.phoneNumber v) => v.getD ""
  | some (.url v) => v.getD ""
  | some (.date d) => (d.bind (·.start)).getD ""
  | some (.files fs) => String.intercalate ", " (fs.filterMap fileDisplay)
  | some (.relation ids) => toString ids.length
  | some (.rollup r) =>
    match r with
    | none => ""
    | some (.number n) =>
      match n with
      | some v => toString v
      | none => ""
    | some (.date d) => (d.bind (·.start)).getD ""
    | some (.array items) =>
      String.intercalate ", "
        (((items.map fun x =>
          match x with
          | some it => extractRollupItem it
          | none => "").filter (· ≠ "")))
    | some (.unrecognizedR _) => ""
  | some (.formula f) =>
    match f with
    | none => ""
    | some (.fstring s) => s.getD ""
    | some (.fnumber n) =>
      match n with
      | some v => toString v
      | none => ""
    | some (.fboolean b) => if b then "TRUE" else "FALSE"
    | some (.fdate d) => (d.bind (·.start)).getD ""
    | some (.unrecognizedF _) => ""
  | some (.createdBy name) => name.getD ""
  | some (.lastEditedBy name) => name.getD ""
  | some (.createdTime v) => v.getD ""
  | some (.lastEditedTime v) => v.getD ""
  | some (.unrecognizedProp _) => ""

/-- The exact shapes on which `stringifyNotionProp` returns a non-string
sheet value: checkboxes, present numbers, numeric rollups, numeric or
boolean formulas. -/
def nonStringShape (prop : Option NotionProp) : Bool :=
  match prop with
  | some (.checkbox _) => true
  | some (.number (some _)) => true
  | some (.rollup (some (.number (some _)))) => true
  | some (.formula (some (.fnumber (some _)))) => true
  | some (.formula (some (.fboolean _))) => true
  | _ => false

/-- Three-page transcript of sizes 100, 100 and 37 chained by cursors. -/
def pagesThree : List (QueryResp Nat) :=
  [⟨true, 200, some (List.range 100), true, some "c1"⟩,
   ⟨true, 200, some ((List.range 100).map (· + 100)), true, some "c2"⟩,
   ⟨true, 200, some ((List.range 37).map (· + 200)), false, none⟩]

end Sync

namespace Sync

/-! ## List helper lemmas -/

theorem set_getD_eq : ∀ (l : List α) (i : Nat) (v : α) (d : α), i < l.length → (l.set i v).getD i d = v
  | _ :: _, 0, _, _, _ => rfl
  | _ :: t, i + 1, v, d, h => set_getD_eq t i v d (Nat.lt_of_succ_lt_succ h)

theorem set_getD_ne : ∀ (l : List α) (i j : Nat) (v : α) (d : α), i ≠ j → (l.set i v).getD j d = l.getD j d
  | [], _, _, _, _, _ => rfl
  | _ :: _, 0, 0, _, _, h => absurd rfl h
  | _ :: _, 0, _ + 1, _, _, _ => rfl
  | _ :: _, _ + 1, 0, _, _, _ => rfl
  | _ :: t, i + 1, j + 1, v, d, h => set_getD_ne t i j v d (fun e => h (by rw [e]))

theorem replicate_getD : ∀ (k j : Nat) (d : α), (List.replicate k d).getD j d = d
  | 0, 0, _ => rfl
  | 0, _ + 1, _ => rfl
  | _ + 1, 0, _ => rfl
  | k + 1, j + 1, d => replicate_getD k j d

theorem getD_append_left : ∀ (l1 l2 : List α) (j : Nat) (d : α), j < l1.length →
    (l1 ++ l2).getD j d = l1.getD j d
  | _ :: _, _, 0, _, _ => rfl
  | _ :: t, l2, j + 1, d, h => getD_append_left t l2 j d (Nat.lt_of_succ_lt_succ h)

theorem getD_append_ge : ∀ (l1 l2 : List α) (j : Nat) (d : α), l1.length ≤ j →
    (l1 ++ l2).getD j d = l2.getD (j - l1.length) d
  | [], _, _, _, _ => by simp
  | _ :: _, _, 0, _, h => by simp at h
  | _ :: t, l2, j + 1, d, h => by
    simpa using getD_append_ge t l2 j d (Nat.le_of_succ_le_succ h)

theorem padTo_getD (l : List α) (n : Nat) (d : α) (j : Nat) : (padTo l n d).getD j d = l.getD j d := by
  unfold padTo
  by_cases h : j < l.length
  · exact getD_append_left l _ j d h
  · rw [getD_append_ge l _ j d (Nat.le_of_not_lt h), replicate_getD]
    have : l.getD j d = d := by
      unfold List.getD
      rw [List.get?_eq_none.mpr (Nat.le_of_not_lt h)]
      rfl
    rw [this]

theorem padTo_length (l : List α) (n : Nat) (d : α) : (padTo l n d).length = max l.length n := by
  unfold padTo
  rw [List.length_append, List.length_replicate]
  omega

theorem setAt_getD_eq (l : List α) (i : Nat) (d v : α) (d2 : α) : (setAt l i d v).getD i d2 = v := by
  unfold setAt
  apply set_getD_eq
  rw [padTo_length]
  omega

theorem setAt_getD_ne (l : List α) (i j : Nat) (d v : α) (h : i ≠ j) :
    (setAt l i d v).getD j d = l.getD j d := by
  unfold setAt
  rw [set_getD_ne _ _ _ _ _ h, padTo_getD]

theorem getD_take (l : List α) (w j : Nat) (d : α) (h : j < w) : (l.take w).getD j d = l.getD j d := by
  unfold List.getD
  rw [List.get?_eq_getElem?, List.get?_eq_getElem?, List.getElem?_take_of_lt h]

/-! ## C1 — upsert key uniqueness -/

/-- C1: for N new rows with M ≤ N distinct non-empty keys (duplicates
present), the claim asserts the grid ends with exactly M rows for the
keyed column and `inserted + updated = M`.  The code violates this: the
key→row map is built once from the existing rows and never updated after
an append, so duplicate new keys are appended once each.  Evaluating the
embedded `upsertRowsByKey` at the failing input — an empty sheet (header
`["K"]` only) and two new rows both keyed `"a"` (N = 2, M = 1) — yields
`inserted = 2, updated = 0` (so `inserted + updated = 2 ≠ 1`) and a grid
holding two data rows keyed `"a"` instead of one. -/
theorem upsertRowsByKey_duplicate_keys_failing_input :
    upsertRowsByKey ⟨[["K"]], [], [], []⟩ "K" ["K"] [["a"], ["a"]]
        = .ok (2, 0, ⟨[["K"], ["a"], ["a"]], [], [], []⟩)
      ∧ 2 + 0 ≠ 1
      ∧ (([["K"], ["a"], ["a"]].drop 1).countP (fun r => r.getD 0 "" == "a")) = 2 := by
  refine ⟨by decide, by decide, by decide⟩

/-! ## C9 — looksLikeId -/

/-- C9 counterexample: `"a b"` contains two characters of the class
`[A-Za-z0-9%]` but `looksLikeId` returns `false`, because the regex
`/[%a-z0-9]{2,}/i` requires two such characters to be consecutive. -/
theorem looksLikeId_nonconsecutive_counterexample :
    ("a b".toList.countP isIdChar ≥ 2) ∧ looksLikeId "a b" = false := by
  refine ⟨by decide, by decide⟩

theorem hasTwoIdChars_iff : ∀ (cs : List Char),
    hasTwoIdChars cs = true ↔
      ∃ l a b r, cs = l ++ a :: b :: r ∧ isIdChar a = true ∧ isIdChar b = true := by
  intro cs
  induction cs with
  | nil =>
    simp only [hasTwoIdChars]
    constructor
    · intro h
      cases h
    · rintro ⟨l, a, b, r, h, _, _⟩
      exact absurd h (by simp)
  | cons c rest ih =>
    cases rest with
    | nil =>
      simp only [hasTwoIdChars]
      constructor
      · intro h
        cases h
      · rintro ⟨l, a, b, r, h, _, _⟩
        have := congrArg List.length h
        simp at this
        omega
    | cons c2 rest2 =>
      simp only [hasTwoIdChars, Bool.or_eq_true, Bool.and_eq_true]
      constructor
      · rintro (⟨h1, h2⟩ | h)
        · exact ⟨[], c, c2, rest2, rfl, h1, h2⟩
        · obtain ⟨l, a, b, r, he, ha, hb⟩ := ih.mp h
          exact ⟨c :: l, a, b, r, by rw [List.cons_append, ← he], ha, hb⟩
      · rintro ⟨l, a, b, r, he, ha, hb⟩
        cases l with
        | nil =>
          have h1 : c = a ∧ c2 = b ∧ rest2 = r := by simpa using he
          exact Or.inl ⟨by rw [h1.1]; exact ha, by rw [h1.2.1]; exact hb⟩
        | cons c0 l2 =>
          simp at he
          exact Or.inr (ih.mpr ⟨l2, a, b, r, he.2, ha, hb⟩)

/-- C9 (amended): `looksLikeId(s)` is true exactly when `s` contains two
CONSECUTIVE characters of the class `[A-Za-z0-9%]` (the regex
`/[%a-z0-9]{2,}/i` needs a run of length ≥ 2, not just two class
characters anywhere). -/
theorem looksLikeId_iff_two_consecutive_id_chars (s : String) :
    looksLikeId s = true ↔
      ∃ l a b r, s.toList = l ++ a :: b :: r ∧ isIdChar a = true ∧ isIdChar b = true :=
  hasTwoIdChars_iff s.toList

/-! ## C8 — flattener totality -/

/-- C8 counterexample: the primary-path flattener `stringifyNotionProp`
returns the raw boolean `true` for a checked checkbox property — not a
string (and not `"TRUE"`). -/
theorem stringifyNotionProp_checkbox_counterexample :
    stringifyNotionProp (some (.checkbox true)) = .boolV true
      ∧ (stringifyNotionProp (some (.checkbox true))).isStr = false := by
  refine ⟨by decide, by decide⟩

/-- C8 (amended): both flatteners are total on every defined variant and
on unrecognized variant tags.  `stringifyNotionProp` returns a non-string
sheet value exactly on checkboxes, present numbers, numeric rollups and
numeric or boolean formulas (raw booleans and numbers), and a string
everywhere else; the string-typed flattener `notionExtractCellValue`
returns `"TRUE"`/`"FALSE"` for checkboxes, the stringified numeric value
or `""` for numbers, and `""` for unrecognized tags. -/
theorem flattener_totality_amended :
    (∀ p : Option NotionProp, (stringifyNotionProp p).isStr = false ↔ nonStringShape p = true)
      ∧ (∀ b, notionExtractCellValue (some (.checkbox b)) = if b then "TRUE" else "FALSE")
      ∧ (∀ v : Int, notionExtractCellValue (some (.number (some v))) = toString v)
      ∧ notionExtractCellValue (some (.number none)) = ""
      ∧ (∀ t, notionExtractCellValue (some (.unrecognizedProp t)) = "") := by
  refine ⟨?_, fun b => rfl, fun v => rfl, rfl, fun t => rfl⟩
  intro p
  rcases p with _ | q
  · simp [stringifyNotionProp, CellValue.isStr, nonStringShape]
  · cases q with
    | number n =>
      cases n <;> simp [stringifyNotionProp, CellValue.isStr, nonStringShape]
    | rollup r =>
      rcases r with _ | rv
      · simp [stringifyNotionProp, stringifyRollup, CellValue.isStr, nonStringShape]
      · cases rv with
        | number n =>
          cases n <;> simp [stringifyNotionProp, stringifyRollup, CellValue.isStr, nonStringShape]
        | _ => simp [stringifyNotionProp, stringifyRollup, CellValue.isStr, nonStringShape]
    | formula f =>
      rcases f with _ | fv
      · simp [stringifyNotionProp, stringifyFormula, CellValue.isStr, nonStringShape]
      · cases fv with
        | fnumber n =>
          cases n <;> simp [stringifyNotionProp, stringifyFormula, CellValue.isStr, nonStringShape]
        | _ => simp [stringifyNotionProp, stringifyFormula, CellValue.isStr, nonStringShape]
    | _ => simp [stringifyNotionProp, CellValue.isStr, nonStringShape]

end Sync

namespace Sync

/-! ## Map and metadata lemmas -/

theorem mapSet_lookup_eq : ∀ (m : List (String × α)) (k : String) (v : α),
    mapLookup (mapSet m k v) k = some v := by
  intro m k v
  induction m with
  | nil => simp [mapSet, mapLookup]
  | cons kv rest ih =>
    by_cases h : kv.1 = k
    · simp [mapSet, mapLookup, h]
    · simp only [mapSet, mapLookup] at ih ⊢
      rw [if_neg (by simpa using h)]
      simp only [List.find?]
      rw [show ((kv.1 == k) = false) by simpa using h]
      exact ih

theorem mapSet_lookup_ne : ∀ (m : List (String × α)) (k : String) (v : α) (k2 : String),
    k2 ≠ k → mapLookup (mapSet m k v) k2 = mapLookup m k2 := by
  intro m k v k2 hne
  induction m with
  | nil =>
    have hk : (k == k2) = false := by simpa using fun e => hne (by rw [e])
    simp [mapSet, mapLookup, List.find?, hk]
  | cons kv rest ih =>
    by_cases h : kv.1 = k
    · simp only [mapSet, mapLookup]
      rw [if_pos (by simpa using h)]
      simp only [List.find?]
      rw [show ((k == k2) = false) by simpa using fun e => hne (by rw [e])]
      rw [show ((kv.1 == k2) = false) by simpa using fun e => hne (by rw [← e, h])]
    · simp only [mapSet, mapLookup]
      rw [if_neg (by simpa using h)]
      simp only [List.find?]
      cases hkv : (kv.1 == k2) with
      | true => rfl
      | false => exact ih

theorem find?_filter_self_append (l : List (String × β)) (key : String) (v : β) :
    ((l.filter (fun x => x.1 ≠ key)) ++ [(key, v)]).find? (fun x => x.1 == key) = some (key, v) := by
  induction l with
  | nil => simp [List.find?]
  | cons kv rest ih =>
    by_cases h : kv.1 = key
    · simp only [List.filter, show (decide (kv.1 ≠ key) = false) from by simp [h]]
      exact ih
    · simp only [List.filter, List.cons_append, List.find?]
      rw [show (decide (kv.1 ≠ key) = true) by simpa using h]
      simp only [List.cons_append, List.find?]
      rw [show ((kv.1 == key) = false) by simpa using h]
      exact ih

theorem getSheetMeta_setSheetMeta_eq (g : Grid) (key : String) (v : MetaBlob) :
    getSheetMeta (setSheetMeta g key v) key = some v := by
  unfold getSheetMeta setSheetMeta
  simp only
  rw [find?_filter_self_append]
  rfl

theorem setSegment_getD_start (row : List String) (start : Nat) (vals : List String)
    (d : String) (h : vals ≠ []) : (setSegment row start vals).getD start d = vals.getD 0 d := by
  unfold setSegment
  have hpre : ((padTo row (start + vals.length) "").take start).length = start := by
    rw [List.length_take, padTo_length]
    omega
  rw [List.append_assoc]
  rw [getD_append_ge ((padTo row (start + vals.length) "").take start)
      (vals ++ (padTo row (start + vals.length) "").drop (start + vals.length)) start d
      (le_of_eq hpre)]
  rw [hpre, Nat.sub_self]
  exact getD_append_left _ _ 0 d (by cases vals with
    | nil => exact absurd rfl h
    | cons a t => simp)

/-! ## C3 — setHeaderCellWithId -/

/-- C3: after `setHeaderCellWithId(sheet, row, col, label, propId)`, the
addressed header cell's visible value is `label`, its note is
`decode(propId)`, and the persisted column-identity map gains exactly the
binding `col → decode(propId)` with every other binding unchanged; in
the spec's scenario — alias map `{"Email (Org)": "Email"}` against a
schema property with id `"HA%40l"` — the id decodes to `"HA@l"`, so the
cell written at column 2 carries value `"Email"` and note `"HA@l"`. -/
theorem setHeaderCellWithId_spec (g : Grid) (row col : Nat) (label propId : String) :
    getCell (setHeaderCellWithId g row col label propId) row col = label
      ∧ getNote (setHeaderCellWithId g row col label propId) row col = decodeId propId
      ∧ mapLookup (loadColMap (setHeaderCellWithId g row col label propId)) (toString col)
          = some (decodeId propId)
      ∧ (∀ k, k ≠ toString col →
          mapLookup (loadColMap (setHeaderCellWithId g row col label propId)) k
            = mapLookup (loadColMap g) k)
      ∧ decodeId "HA%40l" = "HA@l" := by
  have hcell : getCell (setHeaderCellWithId g row col label propId) row col = label := by
    show ((setAt g.rows (row - 1) [] (setSegment (g.rows.getD (row - 1) []) (col - 1) [label])).getD
        (row - 1) []).getD (col - 1) "" = label
    rw [setAt_getD_eq]
    rw [setSegment_getD_start _ _ _ _ (by simp)]
    rfl
  have hnote : getNote (setHeaderCellWithId g row col label propId) row col = decodeId propId := by
    show ((setAt g.notes (row - 1) []
        (setAt (g.notes.getD (row - 1) []) (col - 1) "" (decodeId propId))).getD
          (row - 1) []).getD (col - 1) "" = decodeId propId
    rw [setAt_getD_eq, setAt_getD_eq]
  have hmap : loadColMap (setHeaderCellWithId g row col label propId)
      = mapSet (loadColMap g) (toString col) (decodeId propId) := by
    show loadColMap (setCellMetaList (setSheetMeta _ META_KEY_COLMAP
        (.valid (mapSet (loadColMap _) (toString col) (decodeId propId)))) row col _) = _
    unfold loadColMap
    rw [show ∀ g2 r c l, getSheetMeta (setCellMetaList g2 r c l) META_KEY_COLMAP
        = getSheetMeta g2 META_KEY_COLMAP from fun _ _ _ _ => rfl]
    rw [getSheetMeta_setSheetMeta_eq]
    rfl
  refine ⟨hcell, hnote, ?_, ?_, by decide⟩
  · rw [hmap]
    exact mapSet_lookup_eq _ _ _
  · intro k hk
    rw [hmap]
    exact mapSet_lookup_ne _ _ _ _ hk

/-- C3 witness: the theorem instantiated at the scenario's inputs over a
sheet whose identity map already holds a binding for column 3: the cell
gets value `"Email"` and note `"HA@l"`, the map entry for column 2
becomes `"HA@l"`, and the column-3 binding is untouched. -/
theorem setHeaderCellWithId_spec_witness :
    getCell (setHeaderCellWithId ⟨[], [], [(META_KEY_COLMAP, .valid [("3", "X")])], []⟩
        1 2 "Email" "HA%40l") 1 2 = "Email"
      ∧ getNote (setHeaderCellWithId ⟨[], [], [(META_KEY_COLMAP, .valid [("3", "X")])], []⟩
          1 2 "Email" "HA%40l") 1 2 = decodeId "HA%40l"
      ∧ decodeId "HA%40l" = "HA@l"
      ∧ mapLookup (loadColMap (setHeaderCellWithId ⟨[], [], [(META_KEY_COLMAP, .valid [("3", "X")])], []⟩
          1 2 "Email" "HA%40l")) "3"
        = mapLookup (loadColMap (⟨[], [], [(META_KEY_COLMAP, .valid [("3", "X")])], []⟩ : Grid)) "3" := by
  have hspec := setHeaderCellWithId_spec
    (⟨[], [], [(META_KEY_COLMAP, .valid [("3", "X")])], []⟩ : Grid) 1 2 "Email" "HA%40l"
  exact ⟨hspec.1, hspec.2.1, hspec.2.2.2.2, hspec.2.2.2.1 "3" (by decide)⟩

/-! ## C2 — upsert precondition -/

/-- C2 counterexample: invoking the sync write phase with
`mode = upsert` and no keyLabel over a sheet whose header row reads
`["Old"]`, with requested headers `["New"]`, raises the keyLabel error —
but the header row has already been rewritten to `["New"]` when the
error is raised, so the grid is not unchanged as the claim states. -/
theorem syncWritePhase_missing_keyLabel_counterexample :
    (syncWritePhase ⟨[["Old"]], [], [], []⟩ ["New"] .upsert none [["x"]] 500).1
        = .error "syncDataSourceToSheet: keyLabel is required when mode=upsert"
      ∧ (syncWritePhase ⟨[["Old"]], [], [], []⟩ ["New"] .upsert none [["x"]] 500).2.rows
        = [["New"]]
      ∧ ([["New"]] : List (List String)) ≠ [["Old"]] := by
  refine ⟨by decide, by decide, by decide⟩

theorem ensureHeaders_rows_tail (g : Grid) (h : List String) (j : Nat) :
    (ensureHeaders g h).grid.rows.getD (j + 1) [] = g.rows.getD (j + 1) [] := by
  by_cases he : h.isEmpty
  · simp [ensureHeaders, he]
  · by_cases hs : (row1Padded g (max (getLastColumn g) h.length)).take h.length = h
    · simp [ensureHeaders, he, hs]
    · have hgr : (ensureHeaders g h).grid
          = writeCells (clearRow1 g (max (getLastColumn g) h.length)) 1 1 h := by
        simp [ensureHeaders, he, hs]
      rw [hgr]
      show (setAt (setAt g.rows 0 [] _) 0 [] _).getD (j + 1) [] = _
      rw [setAt_getD_ne _ 0 (j + 1) _ _ (by omega), setAt_getD_ne _ 0 (j + 1) _ _ (by omega)]

/-- C2 (amended): with `mode = "upsert"` and no keyLabel, the sync write
phase raises the keyLabel error and aborts before any data-row write —
every row below row 1 is exactly as before — but the error is raised
after the `ensureHeaders` step, so the header row may already have been
rewritten (the state at the error is exactly the post-`ensureHeaders`
state). -/
theorem syncWritePhase_missing_keyLabel_amended (g : Grid) (headers : List String)
    (rows : List (List String)) (bs : Nat) :
    (syncWritePhase g headers .upsert none rows bs).1
        = .error "syncDataSourceToSheet: keyLabel is required when mode=upsert"
      ∧ (syncWritePhase g headers .upsert none rows bs).2 = (ensureHeaders g headers).grid
      ∧ ∀ j, (syncWritePhase g headers .upsert none rows bs).2.rows.getD (j + 1) []
          = g.rows.getD (j + 1) [] := by
  refine ⟨rfl, rfl, fun j => ?_⟩
  show (ensureHeaders g headers).grid.rows.getD (j + 1) [] = _
  exact ensureHeaders_rows_tail g headers j

end Sync

namespace Sync

/-! ## C4 — ensureHeaders idempotence -/

theorem take_length_append (l1 l2 : List α) : (l1 ++ l2).take l1.length = l1 := by
  induction l1 with
  | nil => rfl
  | cons a t ih => simp [ih]

theorem ensureHeaders_noop (g : Grid) (h : List String) (hne : h ≠ [])
    (hs : (row1Padded g (max (getLastColumn g) h.length)).take h.length = h) :
    ensureHeaders g h = ⟨false, g, 0⟩ := by
  have he : h.isEmpty = false := by
    cases h with
    | nil => exact absurd rfl hne
    | cons _ _ => rfl
  simp [ensureHeaders, he, hs]

/-- C4: header writing is idempotent — a second `ensureHeaders` call with
the identical non-empty header list finds row 1 positionally equal to the
request, performs zero grid writes, returns `changed = false` and leaves
the sheet exactly as the first call left it. -/
theorem ensureHeaders_idempotent (g : Grid) (h : List String) (hne : h ≠ []) :
    ensureHeaders (ensureHeaders g h).grid h
      = ⟨false, (ensureHeaders g h).grid, 0⟩ := by
  by_cases hs : (row1Padded g (max (getLastColumn g) h.length)).take h.length = h
  · rw [ensureHeaders_noop g h hne hs]
    exact ensureHeaders_noop g h hne hs
  · have he : h.isEmpty = false := by
      cases h with
      | nil => exact absurd rfl hne
      | cons _ _ => rfl
    have hgr : (ensureHeaders g h).grid
        = writeCells (clearRow1 g (max (getLastColumn g) h.length)) 1 1 h := by
      simp [ensureHeaders, he, hs]
    obtain ⟨junk, hrow1⟩ : ∃ junk, (ensureHeaders g h).grid.rows.getD 0 [] = h ++ junk := by
      rw [hgr]
      refine ⟨(padTo ((clearRow1 g (max (getLastColumn g) h.length)).rows.getD 0 [])
        (0 + h.length) "").drop (0 + h.length), ?_⟩
      show (setAt (clearRow1 g (max (getLastColumn g) h.length)).rows 0 []
          (setSegment ((clearRow1 g (max (getLastColumn g) h.length)).rows.getD 0 []) 0 h)).getD
            0 [] = _
      rw [setAt_getD_eq]
      show setSegment _ 0 h = _
      unfold setSegment
      rfl
    apply ensureHeaders_noop _ _ hne
    show (padTo ((ensureHeaders g h).grid.rows.getD 0 []) _ "").take h.length = h
    rw [hrow1]
    unfold padTo
    rw [List.append_assoc]
    exact take_length_append h _

/-- C4 witness: the theorem instantiated on a sheet whose header row
reads `["Old"]` with requested headers `["A", "B"]`. -/
theorem ensureHeaders_idempotent_witness :
    ensureHeaders (ensureHeaders ⟨[["Old"]], [], [], []⟩ ["A", "B"]).grid ["A", "B"]
      = ⟨false, (ensureHeaders ⟨[["Old"]], [], [], []⟩ ["A", "B"]).grid, 0⟩ :=
  ensureHeaders_idempotent ⟨[["Old"]], [], [], []⟩ ["A", "B"] (by decide)

end Sync

namespace Sync

/-! ## C6 — pagination completeness -/

theorem queryAllGo_ok {R : Type} : ∀ (pages : List (QueryResp R)) (acc : List R) (cur : Option String),
    (∀ i (hi : i + 1 < pages.length), cursorOf (pages.get ⟨i, Nat.lt_of_succ_lt hi⟩) ≠ none) →
    (∀ p, pages.getLast? = some p → cursorOf p = none) →
    (∀ p ∈ pages, p.ok = true) →
    (pages = [] → cur = none) →
    (pages ≠ [] → cur ≠ none) →
    queryAllGo pages acc cur = .ok (acc ++ (pages.map (fun p => p.results.getD [])).flatten) := by
  intro pages
  induction pages with
  | nil =>
    intro acc cur _ _ _ hnil _
    rw [hnil rfl]
    simp [queryAllGo]
  | cons p rest ih =>
    intro acc cur hchain hlast hok _ hcons
    obtain ⟨s, rfl⟩ : ∃ s, cur = some s := by
      cases cur with
      | none => exact absurd rfl (hcons (by simp))
      | some s => exact ⟨s, rfl⟩
    have hpok : p.ok = true := hok p (by simp)
    rw [show queryAllGo (p :: rest) acc (some s)
        = queryAllGo rest (acc ++ p.results.getD []) (cursorOf p) by
      simp [queryAllGo, hpok]]
    rw [ih (acc ++ p.results.getD []) (cursorOf p)
      (fun i hi => by
        have := hchain (i + 1) (by simpa using hi)
        simpa using this)
      (fun q hq => hlast q (by
        cases rest with
        | nil => exact absurd hq (by simp)
        | cons b t => rw [List.getLast?_cons_cons]; exact hq))
      (fun q hq => hok q (by simp [hq]))
      (fun hres => by
        apply hlast p
        rw [hres]
        rfl)
      (fun hres => by
        have h0 := hchain 0 (by simpa using List.length_pos.mpr hres)
        simpa using h0)]
    simp

theorem queryAllGo_err {R : Type} : ∀ (pages : List (QueryResp R)) (acc : List R)
    (cur : Option String) (k : Nat) (hk : k < pages.length),
    (∀ i (hi : i + 1 < pages.length), cursorOf (pages.get ⟨i, Nat.lt_of_succ_lt hi⟩) ≠ none) →
    (∀ j (hj : j < k), (pages.get ⟨j, Nat.lt_trans hj hk⟩).ok = true) →
    (pages.get ⟨k, hk⟩).ok = false →
    cur ≠ none →
    ∃ e, queryAllGo pages acc cur = .error e := by
  intro pages
  induction pages with
  | nil =>
    intro acc cur k hk
    exact absurd hk (by simp)
  | cons p rest ih =>
    intro acc cur k hk hchain hprev hbad hcur
    obtain ⟨s, rfl⟩ : ∃ s, cur = some s := by
      cases cur with
      | none => exact absurd rfl hcur
      | some s => exact ⟨s, rfl⟩
    by_cases hpok : p.ok = true
    · cases k with
      | zero => exact absurd hbad (by simp [show (p :: rest).get ⟨0, hk⟩ = p from rfl, hpok])
      | succ k2 =>
        have hk2 : k2 < rest.length := by simpa using hk
        obtain ⟨e, he⟩ := ih (acc ++ p.results.getD []) (cursorOf p) k2 hk2
          (fun i hi => by
            have := hchain (i + 1) (by simpa using hi)
            simpa using this)
          (fun j hj => by
            have := hprev (j + 1) (by simpa using hj)
            simpa using this)
          (by simpa using hbad)
          (by
            have h0 := hchain 0 (by simpa using Nat.lt_of_le_of_lt (Nat.zero_le k2) hk2)
            simpa using h0)
        exact ⟨e, by
          rw [show queryAllGo (p :: rest) acc (some s)
              = queryAllGo rest (acc ++ p.results.getD []) (cursorOf p) by
            simp [queryAllGo, hpok]]
          exact he⟩
    · exact ⟨"pagination → " ++ toString p.status, by simp [queryAllGo, hpok]⟩

/-- C6: pagination is exhaustive and order-preserving — for every
transcript of server pages chained by cursors (each non-final page
signalling `has_more` with a non-empty `next_cursor`, the final page
not), `queryDataSourceAll` returns exactly the concatenation of the
pages' result arrays in server order when every page is ok, with no
deduplication or reordering; and when some page is the first non-ok one,
it raises an error rather than returning a partial list. -/
theorem queryDataSourceAll_complete {R : Type} (pages : List (QueryResp R))
    (hne : pages ≠ [])
    (hchain : ∀ i (hi : i + 1 < pages.length), cursorOf (pages.get ⟨i, Nat.lt_of_succ_lt hi⟩) ≠ none)
    (hlast : ∀ p, pages.getLast? = some p → cursorOf p = none) :
    ((∀ p ∈ pages, p.ok = true) →
        queryDataSourceAll pages = .ok ((pages.map (fun p => p.results.getD [])).flatten))
      ∧ (∀ k (hk : k < pages.length),
          (∀ j (hj : j < k), (pages.get ⟨j, Nat.lt_trans hj hk⟩).ok = true) →
          (pages.get ⟨k, hk⟩).ok = false →
          ∃ e, queryDataSourceAll pages = .error e) := by
  cases pages with
  | nil => exact absurd rfl hne
  | cons p rest =>
    constructor
    · intro hok
      have hpok : p.ok = true := hok p (by simp)
      rw [show queryDataSourceAll (p :: rest)
          = queryAllGo rest (p.results.getD []) (cursorOf p) by
        simp [queryDataSourceAll, hpok]]
      rw [queryAllGo_ok rest (p.results.getD []) (cursorOf p)
        (fun i hi => by
          have := hchain (i + 1) (by simpa using hi)
          simpa using this)
        (fun q hq => hlast q (by
          cases rest with
          | nil => exact absurd hq (by simp)
          | cons b t => rw [List.getLast?_cons_cons]; exact hq))
        (fun q hq => hok q (by simp [hq]))
        (fun hres => by
          apply hlast p
          rw [hres]
          rfl)
        (fun hres => by
          have h0 := hchain 0 (by simpa using List.length_pos.mpr hres)
          simpa using h0)]
      simp
    · intro k hk hprev hbad
      cases k with
      | zero =>
        refine ⟨"POST query → " ++ toString p.status, ?_⟩
        have hpok : p.ok = false := by simpa using hbad
        simp [queryDataSourceAll, hpok]
      | succ k2 =>
        have hpok : p.ok = true := by
          have := hprev 0 (by omega)
          simpa using this
        have hk2 : k2 < rest.length := by simpa using hk
        obtain ⟨e, he⟩ := queryAllGo_err rest (p.results.getD []) (cursorOf p) k2 hk2
          (fun i hi => by
            have := hchain (i + 1) (by simpa using hi)
            simpa using this)
          (fun j hj => by
            have := hprev (j + 1) (by simpa using hj)
            simpa using this)
          (by simpa using hbad)
          (by
            have h0 := hchain 0 (by simpa using Nat.lt_of_le_of_lt (Nat.zero_le k2) hk2)
            simpa using h0)
        refine ⟨e, ?_⟩
        rw [show queryDataSourceAll (p :: rest)
            = queryAllGo rest (p.results.getD []) (cursorOf p) by
          simp [queryDataSourceAll, hpok]]
        exact he

set_option maxRecDepth 4000 in
/-- C6 witness: on the three cursor-chained pages of sizes 100, 100 and
37, `queryDataSourceAll` returns exactly their 237 records in server
order. -/
theorem queryDataSourceAll_complete_witness :
    queryDataSourceAll pagesThree = .ok ((pagesThree.map (fun p => p.results.getD [])).flatten)
      ∧ ((pagesThree.map (fun p => p.results.getD [])).flatten).length = 237 :=
  ⟨(queryDataSourceAll_complete pagesThree (by decide)
      (by
        intro i hi
        have hlen : pagesThree.length = 3 := rfl
        rcases i with _ | _ | i
        · exact (by decide : cursorOf (pagesThree.get ⟨0, by decide⟩) ≠ none)
        · exact (by decide : cursorOf (pagesThree.get ⟨1, by decide⟩) ≠ none)
        · rw [hlen] at hi
          omega)
      (by decide)).1 (by decide),
    by decide⟩

end Sync

namespace Sync

/-! ## C7 — retry wrapper -/

theorem retryGo_attempts (tr : Nat → FetchOutcome) :
    ∀ (rem i delayMs : Nat) (lastErr : Option String) (sleeps : List Nat),
      (retryGo tr rem i delayMs lastErr sleeps).attempts ≤ i + rem := by
  intro rem
  induction rem with
  | zero => intro i delayMs lastErr sleeps; simp [retryGo]
  | succ rem ih =>
    intro i delayMs lastErr sleeps
    show (retryGo tr (rem + 1) i delayMs lastErr sleeps).attempts ≤ i + (rem + 1)
    rw [retryGo]
    cases tr i with
    | resp status headers =>
      by_cases hr : isRetryStatus status = true
      · simp only [hr, if_true]
        have := ih (i + 1) (delayMs * 2) lastErr (retryWait headers delayMs :: sleeps)
        omega
      · simp only [show isRetryStatus status = false from by simpa using hr, if_false]
        show i + 1 ≤ i + (rem + 1)
        omega
    | exc m =>
      show (retryGo tr rem (i + 1) (delayMs * 2) (some m) (delayMs :: sleeps)).attempts
        ≤ i + (rem + 1)
      have := ih (i + 1) (delayMs * 2) (some m) (delayMs :: sleeps)
      omega

theorem retryGo_sleeps (tr : Nat → FetchOutcome) :
    ∀ (rem i : Nat) (lastErr : Option String) (acc : List Nat),
      ∃ n, n ≤ rem
        ∧ (retryGo tr rem i (250 * 2 ^ i) lastErr acc).sleeps
            = acc.reverse ++ (List.range n).map (fun k => expectedSleep (tr (i + k)) (i + k))
        ∧ ∀ k, k < n → continues (tr (i + k)) = true := by
  intro rem
  induction rem with
  | zero =>
    intro i lastErr acc
    exact ⟨0, le_refl 0, by simp [retryGo], by omega⟩
  | succ rem ih =>
    intro i lastErr acc
    rw [retryGo]
    cases htr : tr i with
    | resp status headers =>
      by_cases hr : isRetryStatus status = true
      · simp only [hr, if_true]
        have hpow : 250 * 2 ^ i * 2 = 250 * 2 ^ (i + 1) := by ring
        rw [hpow]
        obtain ⟨n, hn, hsleeps, hcont⟩ := ih (i + 1) lastErr (retryWait headers (250 * 2 ^ i) :: acc)
        refine ⟨n + 1, by omega, ?_, ?_⟩
        · have hmap : (List.range n).map (fun k => expectedSleep (tr (i + 1 + k)) (i + 1 + k))
              = (List.range n).map ((fun k => expectedSleep (tr (i + k)) (i + k)) ∘ Nat.succ) := by
            apply List.map_congr_left
            intro a _
            show expectedSleep (tr (i + 1 + a)) (i + 1 + a)
              = expectedSleep (tr (i + (a + 1))) (i + (a + 1))
            rw [show i + 1 + a = i + (a + 1) from by omega]
          rw [hsleeps, hmap, List.reverse_cons, List.append_assoc,
            List.range_succ_eq_map, List.map_cons, List.map_map]
          congr 1
          rw [List.singleton_append]
          congr 1
          show retryWait headers (250 * 2 ^ i) = expectedSleep (tr i) i
          rw [htr]
          rfl
        · intro k hk
          cases k with
          | zero =>
            show continues (tr (i + 0)) = true
            rw [show i + 0 = i from rfl, htr]
            simp [continues, hr]
          | succ k2 =>
            have := hcont k2 (by omega)
            rw [show i + 1 + k2 = i + (k2 + 1) from by omega] at this
            exact this
      · simp only [show isRetryStatus status = false from by simpa using hr, if_false]
        exact ⟨0, by omega, by simp, by omega⟩
    | exc m =>
      have hpow : 250 * 2 ^ i * 2 = 250 * 2 ^ (i + 1) := by ring
      rw [hpow]
      obtain ⟨n, hn, hsleeps, hcont⟩ := ih (i + 1) (some m) (250 * 2 ^ i :: acc)
      refine ⟨n + 1, by omega, ?_, ?_⟩
      · have hmap : (List.range n).map (fun k => expectedSleep (tr (i + 1 + k)) (i + 1 + k))
            = (List.range n).map ((fun k => expectedSleep (tr (i + k)) (i + k)) ∘ Nat.succ) := by
          apply List.map_congr_left
          intro a _
          show expectedSleep (tr (i + 1 + a)) (i + 1 + a)
            = expectedSleep (tr (i + (a + 1))) (i + (a + 1))
          rw [show i + 1 + a = i + (a + 1) from by omega]
        rw [hsleeps, hmap, List.reverse_cons, List.append_assoc,
          List.range_succ_eq_map, List.map_cons, List.map_map]
        congr 1
        rw [List.singleton_append]
        congr 1
        show (250 * 2 ^ i : Nat) = expectedSleep (tr i) i
        rw [htr]
        rfl
      · intro k hk
        cases k with
        | zero =>
          show continues (tr (i + 0)) = true
          rw [show i + 0 = i from rfl, htr]
          rfl
        | succ k2 =>
          have := hcont k2 (by omega)
          rw [show i + 1 + k2 = i + (k2 + 1) from by omega] at this
          exact this

theorem retryGo_exhaust (tr : Nat → FetchOutcome) :
    ∀ (rem i delayMs : Nat) (lastErr : Option String) (acc : List Nat),
      (∀ k, k < rem → continues (tr (i + k)) = true) →
      (retryGo tr rem i delayMs lastErr acc).result
        = .error ((lastExcIn tr i rem lastErr).getD "notionFetchWithRetry: failed after retries") := by
  intro rem
  induction rem with
  | zero =>
    intro i delayMs lastErr acc _
    rfl
  | succ rem ih =>
    intro i delayMs lastErr acc hall
    rw [retryGo, lastExcIn]
    have h0 : continues (tr (i + 0)) = true := hall 0 (by omega)
    rw [show i + 0 = i from rfl] at h0
    cases htr : tr i with
    | resp status headers =>
      rw [htr] at h0
      have hr : isRetryStatus status = true := by simpa [continues] using h0
      simp only [hr, if_true]
      rw [ih (i + 1) (delayMs * 2) lastErr (retryWait headers delayMs :: acc)
        (fun k hk => by
          have := hall (k + 1) (by omega)
          rw [show i + (k + 1) = i + 1 + k from by omega] at this
          exact this)]
    | exc m =>
      rw [ih (i + 1) (delayMs * 2) (some m) (delayMs :: acc)
        (fun k hk => by
          have := hall (k + 1) (by omega)
          rw [show i + (k + 1) = i + 1 + k from by omega] at this
          exact this)]

/-- C7 counterexample: a first response of status 429 carrying
`Retry-After: 0` — the header is present, so the claim prescribes a
sleep of 0 × 1000 ms, but the wrapper's `ra > 0` test fails for 0 and it
sleeps the 250 ms backoff instead. -/
theorem notionFetchWithRetry_retry_after_zero_counterexample :
    (notionFetchWithRetry
        (fun n => if n = 0 then .resp 429 [("Retry-After", "0")] else .resp 200 [])).sleeps
      = [250]
      ∧ (250 : Nat) ≠ 0 * 1000 := by
  exact ⟨by decide, by decide⟩

/-- C7 (amended): the retry wrapper makes at most 5 fetch attempts; after
each continuing attempt `k` (a 429/5xx response or a transport
exception) it sleeps `Retry-After × 1000` ms when that header — read
case-insensitively — is present with a positive numeric value, and the
exponentially doubling backoff `250 · 2^k` ms otherwise (including when
the header is 0 or non-numeric, or on an exception); when all 5 attempts
continue, it raises the last captured transport exception, or the
generic "failed after retries" error when none was captured (HTTP error
responses capture nothing). -/
theorem notionFetchWithRetry_amended (tr : Nat → FetchOutcome) :
    (notionFetchWithRetry tr).attempts ≤ 5
      ∧ (∃ n, n ≤ 5
          ∧ (notionFetchWithRetry tr).sleeps
              = (List.range n).map (fun k => expectedSleep (tr k) k)
          ∧ ∀ k, k < n → continues (tr k) = true)
      ∧ ((∀ k, k < 5 → continues (tr k) = true) →
          (notionFetchWithRetry tr).result
            = .error ((lastExcIn tr 0 5 none).getD "notionFetchWithRetry: failed after retries")) := by
  refine ⟨retryGo_attempts tr 5 0 250 none [], ?_, ?_⟩
  · have h := retryGo_sleeps tr 5 0 none []
    rw [show (250 : Nat) * 2 ^ 0 = 250 from by norm_num] at h
    obtain ⟨n, hn, hsleeps, hcont⟩ := h
    exact ⟨n, hn, by simpa using hsleeps, fun k hk => by simpa using hcont k hk⟩
  · intro hall
    have h := retryGo_exhaust tr 5 0 250 none [] (fun k hk => by simpa using hall k hk)
    exact h

/-- C7 witness: the amended theorem applied to the transcript "429 with
`retry-AFTER: 2`, then 200": at most 5 attempts, and concretely the run
sleeps exactly 2000 ms (the Retry-After value, read case-insensitively)
and succeeds on the second attempt. -/
theorem notionFetchWithRetry_amended_witness :
    (notionFetchWithRetry
        (fun n => if n = 0 then .resp 429 [("retry-AFTER", "2")] else .resp 200 [])).attempts ≤ 5
      ∧ (notionFetchWithRetry
          (fun n => if n = 0 then .resp 429 [("retry-AFTER", "2")] else .resp 200 [])).sleeps
        = [2000]
      ∧ (notionFetchWithRetry
          (fun n => if n = 0 then .resp 429 [("retry-AFTER", "2")] else .resp 200 [])).attempts
        = 2 :=
  ⟨(notionFetchWithRetry_amended
      (fun n => if n = 0 then .resp 429 [("retry-AFTER", "2")] else .resp 200 [])).1,
    by decide, by decide⟩

end Sync

namespace Sync

/-! ## C10 — upsert skips blank keys -/

theorem mem_mapSet (m : List (String × α)) (k : String) (v : α) :
    ∀ kv ∈ mapSet m k v, kv = (k, v) ∨ kv ∈ m := by
  induction m with
  | nil => intro kv hkv; simp [mapSet] at hkv; exact Or.inl hkv
  | cons kv0 rest ih =>
    intro kv hkv
    by_cases h : kv0.1 = k
    · rw [mapSet, if_pos (by simpa using h)] at hkv
      rcases List.mem_cons.mp hkv with h1 | h2
      · exact Or.inl h1
      · exact Or.inr (List.mem_cons_of_mem _ h2)
    · rw [mapSet, if_neg (by simpa using h)] at hkv
      rcases List.mem_cons.mp hkv with h1 | h2
      · exact Or.inr (by rw [h1]; exact List.mem_cons_self _ _)
      · rcases ih kv h2 with h3 | h4
        · exact Or.inl h3
        · exact Or.inr (List.mem_cons_of_mem _ h4)

theorem buildKeyMapGo_mem (kc : Nat) :
    ∀ (rows : List (List String)) (i0 : Nat) (m0 : List (String × Nat)) (P : String × Nat → Prop),
      (∀ kv ∈ m0, P kv) →
      (∀ idx, idx < rows.length → jsTrim ((rows.getD idx []).getD kc "") ≠ "" →
        P (jsTrim ((rows.getD idx []).getD kc ""), i0 + idx + 2)) →
      ∀ kv ∈ buildKeyMapGo kc i0 rows m0, P kv := by
  intro rows
  induction rows with
  | nil => intro i0 m0 P h0 _ kv hkv; exact h0 kv hkv
  | cons row rest ih =>
    intro i0 m0 P h0 hstep kv hkv
    rw [buildKeyMapGo] at hkv
    refine ih (i0 + 1) _ P ?_ ?_ kv hkv
    · intro kv2 hkv2
      by_cases hb : jsTrim (row.getD kc "") = ""
      · rw [if_pos hb] at hkv2
        exact h0 kv2 hkv2
      · rw [if_neg hb] at hkv2
        rcases mem_mapSet m0 _ _ kv2 hkv2 with h1 | h2
        · rw [h1]
          have := hstep 0 (by simp) (by simpa using hb)
          simpa using this
        · exact h0 kv2 h2
    · intro idx hidx hne
      have := hstep (idx + 1) (by simpa using hidx) (by simpa using hne)
      rw [show i0 + (idx + 1) + 2 = i0 + 1 + idx + 2 from by omega] at this
      simpa using this

theorem mapLookup_mem : ∀ (m : List (String × α)) (k : String) (v : α),
    mapLookup m k = some v → (k, v) ∈ m := by
  intro m k v
  induction m with
  | nil => intro h; cases h
  | cons kv rest ih =>
    intro h
    by_cases hp : kv.1 = k
    · have h2 : kv.2 = v := by
        simpa [mapLookup, List.find?, show (kv.1 == k) = true from by simpa using hp] using h
      have hkv : (k, v) = kv := by
        cases kv
        simp only at hp h2
        rw [hp, h2]
      exact List.mem_cons.mpr (Or.inl hkv)
    · have h3 : mapLookup rest k = some v := by
        simpa [mapLookup, List.find?, show (kv.1 == k) = false from by simpa using hp] using h
      exact List.mem_cons_of_mem _ (ih h3)

theorem lastContentRow_le_length : ∀ (l : List (List String)), lastContentRow l ≤ l.length := by
  intro l
  induction l with
  | nil => simp [lastContentRow]
  | cons r t ih =>
    rw [lastContentRow]
    by_cases h : lastContentRow t > 0
    · simp only [if_pos h, List.length_cons]
      omega
    · simp only [if_neg h, List.length_cons]
      by_cases hc : rowHasContent r
      · rw [if_pos hc]
        omega
      · rw [if_neg (by simpa using hc)]
        omega

theorem lastContentRow_ge_of_content : ∀ (l : List (List String)) (n : Nat),
    rowHasContent (l.getD n []) = true → n + 1 ≤ lastContentRow l := by
  intro l
  induction l with
  | nil =>
    intro n h
    rw [show ([] : List (List String)).getD n [] = [] from by cases n <;> rfl] at h
    simp [rowHasContent] at h
  | cons r t ih =>
    intro n h
    cases n with
    | zero =>
      rw [lastContentRow]
      by_cases hp : lastContentRow t > 0
      · rw [if_pos hp]
        omega
      · rw [if_neg hp]
        rw [show (r :: t).getD 0 [] = r from rfl] at h
        rw [if_pos h]
    | succ n2 =>
      have := ih n2 (by simpa using h)
      rw [lastContentRow]
      by_cases hp : lastContentRow t > 0
      · rw [if_pos hp]
        omega
      · omega

theorem content_at_lastContentRow : ∀ (l : List (List String)),
    0 < lastContentRow l → rowHasContent (l.getD (lastContentRow l - 1) []) = true := by
  intro l
  induction l with
  | nil => intro h; simp [lastContentRow] at h
  | cons r t ih =>
    intro h
    rw [lastContentRow] at h ⊢
    by_cases hp : lastContentRow t > 0
    · rw [if_pos hp] at h ⊢
      have := ih hp
      rw [show lastContentRow t + 1 - 1 = (lastContentRow t - 1) + 1 from by omega]
      simpa using this
    · rw [if_neg hp] at h ⊢
      by_cases hc : rowHasContent r
      · rw [if_pos hc]
        exact hc
      · rw [if_neg (by simpa using hc)] at h
        omega

theorem getD_mem_of_ne_default (l : List α) (n : Nat) (d : α) (h : l.getD n d ≠ d) :
    l.getD n d ∈ l := by
  by_cases hn : n < l.length
  · unfold List.getD
    rw [List.get?_eq_get hn]
    exact List.get_mem l n hn
  · exact absurd (by
      unfold List.getD
      rw [List.get?_eq_none.mpr (Nat.le_of_not_lt hn)]
      rfl) h

theorem rowHasContent_of_getD (row : List String) (n : Nat) (h : row.getD n "" ≠ "") :
    rowHasContent row = true := by
  unfold rowHasContent
  rw [List.any_eq_true]
  exact ⟨row.getD n "", getD_mem_of_ne_default row n "" h, by simpa using h⟩

theorem writeCells_rows_getD_ne (g : Grid) (r c : Nat) (vals : List String) (n : Nat)
    (h : n ≠ r - 1) : (writeCells g r c vals).rows.getD n [] = g.rows.getD n [] := by
  unfold writeCells
  exact setAt_getD_ne _ _ _ _ _ (fun e => h e.symm)

theorem writeCells_written_row (g : Grid) (r : Nat) (vals : List String) :
    (writeCells g r 1 vals).rows.getD (r - 1) []
      = vals ++ (padTo (g.rows.getD (r - 1) []) vals.length "").drop vals.length := by
  unfold writeCells
  rw [setAt_getD_eq]
  unfold setSegment
  simp

theorem content_writeCells_target (g : Grid) (r : Nat) (vals : List String) (n : Nat)
    (h : vals.getD n "" ≠ "") :
    rowHasContent ((writeCells g r 1 vals).rows.getD (r - 1) []) = true := by
  rw [writeCells_written_row]
  apply rowHasContent_of_getD _ n
  rw [getD_append_left _ _ n "" (by
    by_cases hn : n < vals.length
    · exact hn
    · exact absurd (by
        unfold List.getD
        rw [List.get?_eq_none.mpr (Nat.le_of_not_lt hn)]
        rfl) h)]
  exact h

theorem getLastRow_writeCells_ge (g : Grid) (r : Nat) (vals : List String) (n : Nat)
    (hval : vals.getD n "" ≠ "") :
    getLastRow g ≤ getLastRow (writeCells g r 1 vals) := by
  by_cases hz : getLastRow g = 0
  · omega
  · by_cases hcase : r - 1 = getLastRow g - 1
    · have hc := content_writeCells_target g r vals n hval
      have h2 := lastContentRow_ge_of_content (writeCells g r 1 vals).rows (r - 1) hc
      have h3 : r - 1 + 1 ≤ getLastRow (writeCells g r 1 vals) := h2
      omega
    · have hpos : 0 < lastContentRow g.rows := by
        have hgl : lastContentRow g.rows = getLastRow g := rfl
        omega
      have hcontent := content_at_lastContentRow g.rows hpos
      have hpres := writeCells_rows_getD_ne g r 1 vals (getLastRow g - 1)
        (fun e => hcase e.symm)
      have h2 := lastContentRow_ge_of_content (writeCells g r 1 vals).rows (getLastRow g - 1)
        (by rw [hpres]; exact hcontent)
      have h3 : getLastRow g - 1 + 1 ≤ getLastRow (writeCells g r 1 vals) := h2
      omega

end Sync

namespace Sync

theorem tail_getD (l : List α) (n : Nat) (d : α) : l.tail.getD n d = l.getD (n + 1) d := by
  cases l with
  | nil => rfl
  | cons a t => rfl

theorem getD_map_lt (f : α → β) (l : List α) (n : Nat) (h : n < l.length) (d : β) (d2 : α) :
    (l.map f).getD n d = f (l.getD n d2) := by
  unfold List.getD
  rw [List.get?_map, List.get?_eq_get h]
  rfl

theorem upsertRowsByKey_eq_fold (g : Grid) (kh : String) (headers : List String)
    (rows : List (List String)) (ki kc : Nat)
    (hne : rows ≠ [])
    (hki : headers.findIdx? (· == kh) = some ki)
    (hkc : (((g.rows.take (getLastRow g)).map
        (fun r => padTo r (getLastColumn g) "")).headD []).findIdx? (· == kh) = some kc) :
    upsertRowsByKey g kh headers rows
      = .ok (rows.foldl (upsertStep ki (buildKeyMap
          (((g.rows.take (getLastRow g)).map (fun r => padTo r (getLastColumn g) "")).tail) kc))
          (0, 0, g)) := by
  cases rows with
  | nil => exact absurd rfl hne
  | cons r0 rt =>
    unfold upsertRowsByKey
    simp only [List.isEmpty_cons, Bool.false_eq_true, if_false, hki, hkc]

theorem foldl_upsertStep_filter (ki : Nat) (km : List (String × Nat)) :
    ∀ (rows : List (List String)) (acc : Nat × Nat × Grid),
      rows.foldl (upsertStep ki km) acc
        = (rows.filter (fun r => jsTrim (r.getD ki "") ≠ "")).foldl (upsertStep ki km) acc := by
  intro rows
  induction rows with
  | nil => intro acc; rfl
  | cons r t ih =>
    intro acc
    by_cases hb : jsTrim (r.getD ki "") = ""
    · have hstep : upsertStep ki km acc r = acc := by
        show (if jsTrim (r.getD ki "") = "" then acc
          else match mapLookup km (jsTrim (r.getD ki "")) with
            | some rr => (acc.1, acc.2.1 + 1, writeCells acc.2.2 rr 1 r)
            | none => (acc.1 + 1, acc.2.1, appendRowG acc.2.2 r)) = acc
        rw [if_pos hb]
      rw [List.foldl_cons, hstep, List.filter_cons,
        show (decide (jsTrim (r.getD ki "") ≠ "") = false) from by simpa using hb]
      simp only [Bool.false_eq_true, if_false]
      exact ih acc
    · rw [List.foldl_cons, List.filter_cons,
        show (decide (jsTrim (r.getD ki "") ≠ "") = true) from by simpa using hb]
      simp only [if_true]
      rw [List.foldl_cons]
      exact ih (upsertStep ki km acc r)

theorem foldl_upsertStep_blank_preserved (g0 : Grid) (ki : Nat) (km : List (String × Nat)) (j : Nat)
    (hkm : ∀ k r, mapLookup km k = some r → r - 1 ≠ j + 1)
    (hj1 : j + 1 < getLastRow g0) :
    ∀ (rows : List (List String)) (acc : Nat × Nat × Grid),
      acc.2.2.rows.getD (j + 1) [] = g0.rows.getD (j + 1) [] →
      getLastRow g0 ≤ getLastRow acc.2.2 →
      (rows.foldl (upsertStep ki km) acc).2.2.rows.getD (j + 1) [] = g0.rows.getD (j + 1) []
        ∧ getLastRow g0 ≤ getLastRow (rows.foldl (upsertStep ki km) acc).2.2 := by
  intro rows
  induction rows with
  | nil => intro acc h1 h2; exact ⟨h1, h2⟩
  | cons row rest ih =>
    intro acc h1 h2
    rw [List.foldl_cons]
    by_cases hb : jsTrim (row.getD ki "") = ""
    · rw [show upsertStep ki km acc row = acc from by
        show (if jsTrim (row.getD ki "") = "" then acc
          else match mapLookup km (jsTrim (row.getD ki "")) with
            | some rr => (acc.1, acc.2.1 + 1, writeCells acc.2.2 rr 1 row)
            | none => (acc.1 + 1, acc.2.1, appendRowG acc.2.2 row)) = acc
        rw [if_pos hb]]
      exact ih acc h1 h2
    · have hcell : row.getD ki "" ≠ "" := fun e => hb (by rw [e]; rfl)
      cases hlook : mapLookup km (jsTrim (row.getD ki "")) with
      | some r =>
        rw [show upsertStep ki km acc row = (acc.1, acc.2.1 + 1, writeCells acc.2.2 r 1 row) from by
          show (if jsTrim (row.getD ki "") = "" then acc
            else match mapLookup km (jsTrim (row.getD ki "")) with
              | some rr => (acc.1, acc.2.1 + 1, writeCells acc.2.2 rr 1 row)
              | none => (acc.1 + 1, acc.2.1, appendRowG acc.2.2 row))
            = (acc.1, acc.2.1 + 1, writeCells acc.2.2 r 1 row)
          rw [if_neg hb, hlook]]
        apply ih
        · show (writeCells acc.2.2 r 1 row).rows.getD (j + 1) [] = _
          rw [writeCells_rows_getD_ne _ _ _ _ _ (fun e => hkm _ r hlook e.symm)]
          exact h1
        · show getLastRow g0 ≤ getLastRow (writeCells acc.2.2 r 1 row)
          exact le_trans h2 (getLastRow_writeCells_ge acc.2.2 r row ki hcell)
      | none =>
        rw [show upsertStep ki km acc row = (acc.1 + 1, acc.2.1, appendRowG acc.2.2 row) from by
          show (if jsTrim (row.getD ki "") = "" then acc
            else match mapLookup km (jsTrim (row.getD ki "")) with
              | some rr => (acc.1, acc.2.1 + 1, writeCells acc.2.2 rr 1 row)
              | none => (acc.1 + 1, acc.2.1, appendRowG acc.2.2 row))
            = (acc.1 + 1, acc.2.1, appendRowG acc.2.2 row)
          rw [if_neg hb, hlook]]
        apply ih
        · show (writeCells acc.2.2 (getLastRow acc.2.2 + 1) 1 row).rows.getD (j + 1) [] = _
          rw [writeCells_rows_getD_ne _ _ _ _ _ (by
            show j + 1 ≠ getLastRow acc.2.2 + 1 - 1
            omega)]
          exact h1
        · show getLastRow g0 ≤ getLastRow (writeCells acc.2.2 (getLastRow acc.2.2 + 1) 1 row)
          exact le_trans h2 (getLastRow_writeCells_ge _ _ row ki hcell)

/-- C10: `upsertRowsByKey` silently skips every new row whose key cell is
empty or whitespace-only after trimming — the result (counts and final
grid) is identical to running it on the new rows with blank keys
filtered out — and existing sheet rows with blank key cells are excluded
from the key→row match map, so they are never matched: every existing
data row whose key cell is blank is byte-for-byte unchanged in the final
grid. -/
theorem upsertRowsByKey_blank_keys (g : Grid) (kh : String) (headers : List String)
    (rows : List (List String)) (ki kc : Nat)
    (hki : headers.findIdx? (· == kh) = some ki)
    (hkc : (((g.rows.take (getLastRow g)).map
        (fun r => padTo r (getLastColumn g) "")).headD []).findIdx? (· == kh) = some kc) :
    (upsertRowsByKey g kh headers rows
        = upsertRowsByKey g kh headers (rows.filter (fun r => jsTrim (r.getD ki "") ≠ "")))
      ∧ (∀ i u g2, upsertRowsByKey g kh headers rows = .ok (i, u, g2) →
          ∀ j, j + 1 < getLastRow g →
            jsTrim ((g.rows.getD (j + 1) []).getD kc "") = "" →
            g2.rows.getD (j + 1) [] = g.rows.getD (j + 1) []) := by
  constructor
  · by_cases hrows : rows = []
    · rw [hrows]
      rfl
    · by_cases hf : rows.filter (fun r => jsTrim (r.getD ki "") ≠ "") = []
      · rw [upsertRowsByKey_eq_fold g kh headers rows ki kc hrows hki hkc,
          foldl_upsertStep_filter, hf]
        rfl
      · rw [upsertRowsByKey_eq_fold g kh headers rows ki kc hrows hki hkc,
          upsertRowsByKey_eq_fold g kh headers _ ki kc hf hki hkc,
          foldl_upsertStep_filter]
  · intro i u g2 hok j hj hblank
    by_cases hrows : rows = []
    · rw [hrows] at hok
      have hg2 : g2 = g := by
        have h2 : ((0 : Nat), (0 : Nat), g) = (i, u, g2) := by
          injection hok
        have := congrArg (fun t => t.2.2) h2
        simpa using this.symm
      rw [hg2]
    · rw [upsertRowsByKey_eq_fold g kh headers rows ki kc hrows hki hkc] at hok
      have hfold : rows.foldl (upsertStep ki (buildKeyMap
          (((g.rows.take (getLastRow g)).map (fun r => padTo r (getLastColumn g) "")).tail) kc))
          (0, 0, g) = (i, u, g2) := by
        injection hok
      have hkm : ∀ k r, mapLookup (buildKeyMap
          (((g.rows.take (getLastRow g)).map (fun r => padTo r (getLastColumn g) "")).tail) kc) k
            = some r → r - 1 ≠ j + 1 := by
        intro k r hl heq
        have hmem := mapLookup_mem _ k r hl
        have hch := buildKeyMapGo_mem kc
          (((g.rows.take (getLastRow g)).map (fun r => padTo r (getLastColumn g) "")).tail) 0 []
          (fun kv => ∃ idx,
            idx < (((g.rows.take (getLastRow g)).map
              (fun r => padTo r (getLastColumn g) "")).tail).length
            ∧ kv.2 = idx + 2
            ∧ jsTrim (((((g.rows.take (getLastRow g)).map
                (fun r => padTo r (getLastColumn g) "")).tail).getD idx []).getD kc "") ≠ "")
          (by intro kv hkv; cases hkv)
          (by
            intro idx hidx hne2
            exact ⟨idx, hidx, by omega, hne2⟩)
          (k, r) hmem
        obtain ⟨idx, hidx, hr2, hkey⟩ := hch
        have hidxeq : idx = j := by
          simp only at hr2
          omega
        rw [hidxeq] at hkey
        apply hkey
        have hlen : j + 1 < ((g.rows.take (getLastRow g)).map
            (fun r => padTo r (getLastColumn g) "")).length := by
          rw [List.length_map, List.length_take]
          have hle := lastContentRow_le_length g.rows
          have hgl : getLastRow g = lastContentRow g.rows := rfl
          show j + 1 < min (getLastRow g) g.rows.length
          omega
        rw [tail_getD,
          getD_map_lt (fun r => padTo r (getLastColumn g) "") _ (j + 1)
            (by simpa using hlen) [] [],
          padTo_getD,
          getD_take _ _ _ _ (by
            have : j + 1 < getLastRow g := hj
            omega)]
        exact hblank
      have hinv := foldl_upsertStep_blank_preserved g ki _ j hkm hj rows (0, 0, g) rfl (le_refl _)
      have := hinv.1
      rw [hfold] at this
      exact this

end Sync

namespace Sync

/-- C10 witness: on a sheet `[["K","V"], ["","x"], ["u2","b"]]` (one
blank-key data row) and new rows `[["","z"], ["u2","y"]]`, the run equals
the run on the blank-filtered rows, and the blank-key data row `["","x"]`
is unchanged in the final grid. -/
theorem upsertRowsByKey_blank_keys_witness :
    (upsertRowsByKey ⟨[["K", "V"], ["", "x"], ["u2", "b"]], [], [], []⟩ "K" ["K", "V"]
        [["", "z"], ["u2", "y"]]
      = upsertRowsByKey ⟨[["K", "V"], ["", "x"], ["u2", "b"]], [], [], []⟩ "K" ["K", "V"]
        (([["", "z"], ["u2", "y"]] : List (List String)).filter
          (fun r => jsTrim (r.getD 0 "") ≠ "")))
      ∧ ((⟨[["K", "V"], ["", "x"], ["u2", "y"]], [], [], []⟩ : Grid).rows.getD 1 []
        = (⟨[["K", "V"], ["", "x"], ["u2", "b"]], [], [], []⟩ : Grid).rows.getD 1 []) := by
  have h := upsertRowsByKey_blank_keys
    (⟨[["K", "V"], ["", "x"], ["u2", "b"]], [], [], []⟩ : Grid) "K" ["K", "V"]
    [["", "z"], ["u2", "y"]] 0 0 (by decide) (by decide)
  refine ⟨h.1, ?_⟩
  exact h.2 0 1 ⟨[["K", "V"], ["", "x"], ["u2", "y"]], [], [], []⟩ (by decide) 0
    (by decide) (by decide)

end Sync

namespace Sync

/-! ## C5 — alias resolution determinism -/

theorem getLast?_cons_ne (x : α) (l : List α) (h : l ≠ []) :
    (x :: l).getLast? = l.getLast? := by
  cases l with
  | nil => exact absurd rfl h
  | cons b t => exact List.getLast?_cons_cons

theorem getLast?_perm_of_all_eq (l1 l2 : List α) (hperm : l1.Perm l2)
    (halleq : ∀ a ∈ l1, ∀ b ∈ l1, a = b) : l1.getLast? = l2.getLast? := by
  by_cases h1 : l1 = []
  · rw [h1] at hperm ⊢
    rw [List.Perm.eq_nil hperm.symm]
  · have h2 : l2 ≠ [] := fun h => h1 (List.Perm.eq_nil (by rw [h] at hperm; exact hperm))
    rw [List.getLast?_eq_getLast l1 h1, List.getLast?_eq_getLast l2 h2]
    rw [halleq (l1.getLast h1) (List.getLast_mem h1) (l2.getLast h2)
      (hperm.symm.subset (List.getLast_mem h2))]

theorem find?_perm_unique (l1 l2 : List α) (p : α → Bool) (hperm : l1.Perm l2)
    (huniq : ∀ a ∈ l1, ∀ b ∈ l1, p a = true → p b = true → a = b) :
    l1.find? p = l2.find? p := by
  cases h1 : l1.find? p with
  | none =>
    cases h2 : l2.find? p with
    | none => rfl
    | some b =>
      have hb : p b = true := List.find?_some h2
      have hbmem : b ∈ l1 := hperm.symm.subset (List.mem_of_find?_eq_some h2)
      have := List.find?_eq_none.mp h1 b hbmem
      exact absurd hb this
  | some a =>
    have ha : p a = true := List.find?_some h1
    have hamem : a ∈ l1 := List.mem_of_find?_eq_some h1
    cases h2 : l2.find? p with
    | none =>
      have := List.find?_eq_none.mp h2 a (hperm.subset hamem)
      exact absurd ha this
    | some b =>
      have hb : p b = true := List.find?_some h2
      have hbmem : b ∈ l1 := hperm.symm.subset (List.mem_of_find?_eq_some h2)
      rw [huniq a hamem b hbmem ha hb]

theorem buildNameIndexCI_foldl_lookup :
    ∀ (props : List (String × String)) (idx : List (String × (String × String))) (k : String),
      mapLookup (props.foldl
          (fun idx np => if np.2 = "" then idx else mapSet idx (normKey np.1) (np.1, np.2)) idx) k
        = match (props.filter (fun np => np.2 ≠ "" && normKey np.1 == k)).getLast? with
          | some np => some np
          | none => mapLookup idx k := by
  intro props
  induction props with
  | nil => intro idx k; rfl
  | cons np rest ih =>
    intro idx k
    rw [List.foldl_cons, ih, List.filter_cons]
    by_cases hid : np.2 = ""
    · rw [show (decide (np.2 ≠ "") && (normKey np.1 == k)) = false from by simp [hid]]
      simp only [Bool.false_eq_true, if_false, if_pos hid]
    · by_cases hk : normKey np.1 = k
      · rw [show (decide (np.2 ≠ "") && (normKey np.1 == k)) = true from by simp [hid, hk]]
        simp only [if_true, if_neg hid]
        cases hl : (rest.filter (fun np => np.2 ≠ "" && normKey np.1 == k)).getLast? with
        | some m =>
          have hne : rest.filter (fun np => np.2 ≠ "" && normKey np.1 == k) ≠ [] := by
            intro h
            rw [h] at hl
            cases hl
          rw [getLast?_cons_ne np _ hne, hl]
        | none =>
          have hnil : rest.filter (fun np => np.2 ≠ "" && normKey np.1 == k) = [] := by
            cases hfe : rest.filter (fun np => np.2 ≠ "" && normKey np.1 == k) with
            | nil => rfl
            | cons a t =>
              rw [hfe, List.getLast?_eq_getLast (a :: t) (List.cons_ne_nil a t)] at hl
              cases hl
          rw [hnil]
          show mapLookup (mapSet idx (normKey np.1) (np.1, np.2)) k = some (np.1, np.2)
          rw [← hk]
          exact mapSet_lookup_eq idx (normKey np.1) (np.1, np.2)
      · rw [show (decide (np.2 ≠ "") && (normKey np.1 == k)) = false from by simp [hk]]
        simp only [Bool.false_eq_true, if_false, if_neg hid]
        cases (rest.filter (fun np => np.2 ≠ "" && normKey np.1 == k)).getLast? with
        | some m => rfl
        | none =>
          exact mapSet_lookup_ne idx (normKey np.1) (np.1, np.2) k (fun e => hk e.symm)

end Sync

namespace Sync

theorem buildNameIndexCI_lookup (props : List (String × String)) (k : String) :
    mapLookup (buildNameIndexCI props) k
      = (props.filter (fun np => np.2 ≠ "" && normKey np.1 == k)).getLast? := by
  have h := buildNameIndexCI_foldl_lookup props [] k
  rw [show buildNameIndexCI props
      = props.foldl (fun idx np => if np.2 = "" then idx
          else mapSet idx (normKey np.1) (np.1, np.2)) [] from rfl, h]
  cases (props.filter (fun np => np.2 ≠ "" && normKey np.1 == k)).getLast? with
  | some m => rfl
  | none => rfl

/-- C5 counterexample: two schemas holding the same two properties in
opposite orders, where the properties' ids `"%61b"` and `"ab"` decode to
the same value: the ID-match branch takes the first decoded match in
schema order, so the resolver returns different specs for the two
permuted schemas — schema property order does affect the result. -/
theorem buildSpecs_schema_order_counterexample :
    (([("P1", "%61b"), ("P2", "ab")] : List (String × String)).Perm
        [("P2", "ab"), ("P1", "%61b")])
      ∧ buildSpecsFromDataSourceWithAliasesOnlyCI [("P1", "%61b"), ("P2", "ab")] [("ab", "L")]
        ≠ buildSpecsFromDataSourceWithAliasesOnlyCI [("P2", "ab"), ("P1", "%61b")] [("ab", "L")] := by
  exact ⟨by decide, by decide⟩

/-- C5 (amended): for a fixed alias map and schema, the resolver emits
specs in alias-map iteration order (resolution is per-entry, so the
output over a concatenation of alias segments is the concatenation of
the outputs); and schema property order does not affect the result
provided no two schema properties share a decoded id and no two share a
normalized name — when two properties collide on either, the first match
in schema order wins and permuting the schema can change the result. -/
theorem buildSpecs_determinism_amended :
    (∀ (props a1 a2 : List (String × String)),
        buildSpecsFromDataSourceWithAliasesOnlyCI props (a1 ++ a2)
          = buildSpecsFromDataSourceWithAliasesOnlyCI props a1
            ++ buildSpecsFromDataSourceWithAliasesOnlyCI props a2)
      ∧ (∀ (props props2 aliases : List (String × String)),
          props.Perm props2 →
          (∀ p ∈ props, ∀ q ∈ props, decodeId p.2 = decodeId q.2 → p = q) →
          (∀ p ∈ props, ∀ q ∈ props, normKey p.1 = normKey q.1 → p = q) →
          buildSpecsFromDataSourceWithAliasesOnlyCI props aliases
            = buildSpecsFromDataSourceWithAliasesOnlyCI props2 aliases) := by
  constructor
  · intro props a1 a2
    simp only [buildSpecsFromDataSourceWithAliasesOnlyCI]
    exact List.filterMap_append _ _ _
  · intro props props2 aliases hperm h1 h2
    simp only [buildSpecsFromDataSourceWithAliasesOnlyCI]
    have hfun : ∀ kv : String × String,
        resolveAliasCI props (buildNameIndexCI props) kv.1 kv.2
          = resolveAliasCI props2 (buildNameIndexCI props2) kv.1 kv.2 := by
      intro kv
      unfold resolveAliasCI
      by_cases hid : looksLikeId kv.1 = true
      · simp only [hid, if_true]
        have huniq : ∀ a ∈ props, ∀ b ∈ props,
            (decodeId a.2 == decodeId kv.1 || a.2 == kv.1) = true →
            (decodeId b.2 == decodeId kv.1 || b.2 == kv.1) = true → a = b := by
          intro a ha b hb hpa hpb
          apply h1 a ha b hb
          have hda : decodeId a.2 = decodeId kv.1 := by
            rcases (by simpa using hpa : decodeId a.2 = decodeId kv.1 ∨ a.2 = kv.1) with h | h
            · exact h
            · rw [h]
          have hdb : decodeId b.2 = decodeId kv.1 := by
            rcases (by simpa using hpb : decodeId b.2 = decodeId kv.1 ∨ b.2 = kv.1) with h | h
            · exact h
            · rw [h]
          rw [hda, hdb]
        rw [find?_perm_unique props props2 _ hperm huniq]
      · simp only [show looksLikeId kv.1 = false from by simpa using hid,
          Bool.false_eq_true, if_false]
        rw [buildNameIndexCI_lookup, buildNameIndexCI_lookup]
        rw [getLast?_perm_of_all_eq _ _ (hperm.filter _) (by
          intro a ha b hb
          have hma := List.mem_filter.mp ha
          have hmb := List.mem_filter.mp hb
          apply h2 a hma.1 b hmb.1
          have hka : normKey a.1 = normKey kv.1 := by
            have := hma.2
            simp at this
            exact this.2
          have hkb : normKey b.1 = normKey kv.1 := by
            have := hmb.2
            simp at this
            exact this.2
          rw [hka, hkb])]
    rw [show (fun kv : String × String =>
        resolveAliasCI props (buildNameIndexCI props) kv.1 kv.2)
      = fun kv => resolveAliasCI props2 (buildNameIndexCI props2) kv.1 kv.2 from funext hfun]

/-- C5 witness: the amended invariance applied to two permutations of a
collision-free two-property schema with a fixed alias map. -/
theorem buildSpecs_determinism_amended_witness :
    buildSpecsFromDataSourceWithAliasesOnlyCI [("Name", "t1"), ("Email (Org)", "HA%40l")]
        [("email (org)", "Email")]
      = buildSpecsFromDataSourceWithAliasesOnlyCI [("Email (Org)", "HA%40l"), ("Name", "t1")]
        [("email (org)", "Email")] :=
  buildSpecs_determinism_amended.2 _ _ _ (by decide) (by decide) (by decide)

end Sync
